import Mathlib

/-!
Verification of the tic-tac-toe board model and minimax decision engine
(`board.py`, `player.py`, `tic_tac_toe.py`).

The board is a fixed 9-slot grid; each slot holds `" "`, `"X"` or `"O"`,
modelled here as `Option Mark` (with `none` for the blank slot).  The board
list `self.board` becomes a total function `Fin 9 → Option Mark`.
Python's float scores (`float("-inf")`, `float("inf")` and the integer
terminal scores) are modelled by the `Score` type with explicit infinities.
-/

inductive Mark : Type where
  | X : Mark
  | O : Mark
deriving DecidableEq, Repr, Fintype

/-- `"O" if self.mark == "X" else "X"` (`AIAgent.__init__`). -/
def Mark.other : Mark → Mark
  | Mark.X => Mark.O
  | Mark.O => Mark.X

/-- The 9-slot board `self.board`; slot `i` holds `none` for `" "`. -/
def Board : Type := Fin 9 → Option Mark

instance : DecidableEq Board := fun b c =>
  decidable_of_iff (∀ i, b i = c i) ⟨funext, fun h i => by rw [h]⟩

/-- `self.board = 9 * [" "]` (`Board.reset`). -/
def Board.reset : Board := fun _ => none

/-- The single-slot assignment `self.board[pos] = v`. -/
def Board.set (b : Board) (pos : Fin 9) (v : Option Mark) : Board :=
  fun j => if j = pos then v else b j

/-- `Board.check_state`: scan the three rows, the three columns and the two
diagonals in source order; return the mark of the first line whose three
slots are equal and non-blank, else `none`. -/
def Board.check_state (b : Board) : Option Mark :=
  if b 0 = b 1 ∧ b 1 = b 2 ∧ b 2 ≠ none then b 0
  else if b 3 = b 4 ∧ b 4 = b 5 ∧ b 5 ≠ none then b 3
  else if b 6 = b 7 ∧ b 7 = b 8 ∧ b 8 ≠ none then b 6
  else if b 0 = b 3 ∧ b 3 = b 6 ∧ b 6 ≠ none then b 0
  else if b 1 = b 4 ∧ b 4 = b 7 ∧ b 7 ≠ none then b 1
  else if b 2 = b 5 ∧ b 5 = b 8 ∧ b 8 ≠ none then b 2
  else if b 0 = b 4 ∧ b 4 = b 8 ∧ b 8 ≠ none then b 0
  else if b 6 = b 4 ∧ b 4 = b 2 ∧ b 2 ≠ none then b 6
  else none

/-- `Board.is_full`: `" " not in self.board`. -/
def Board.is_full (b : Board) : Bool :=
  (List.finRange 9).all fun i => (b i).isSome

/-- `Board.get_available_positions`:
`[i for i, mark in enumerate(self.board) if mark == " "]`. -/
def Board.get_available_positions (b : Board) : List (Fin 9) :=
  (List.finRange 9).filter fun i => (b i).isNone

/-- `Board.update`: succeeds iff `-1 < player.position < 9` and the slot is
blank; the GUI button update is presentation-only and omitted.  The result
pairs the new board with the boolean return value. -/
def Board.update (b : Board) (position : Int) (mark : Mark) : Board × Bool :=
  if h : -1 < position ∧ position < 9 then
    let i : Fin 9 := ⟨position.toNat, by omega⟩
    if b i = none then (b.set i (some mark), true) else (b, false)
  else (b, false)

/-- `Player.process_input` acting on `self.position`: the guard
`1 > self.position > 9` resets the position to `-1` when it holds. -/
def Player.process_input (position : Int) : Int :=
  if 1 > position ∧ position > 9 then -1 else position

/-- C10: For every stored position value, the base `Player.process_input`
leaves the position unchanged: the guard `1 > self.position > 9` is
unsatisfiable, so the reset branch never executes and the function is the
identity. -/
theorem player_process_input_identity :
    ∀ position : Int,
      Player.process_input position = position ∧ ¬(1 > position ∧ position > 9) := by
  intro position
  constructor
  · unfold Player.process_input
    rw [if_neg]
    omega
  · omega

/-- C4: `Board.update` succeeds — sets the addressed slot to the mark,
leaves every other slot unchanged, and returns `true` — exactly when the
position lies in `[0, 8]` and the addressed slot is blank; in every other
case it returns `false` and leaves all 9 slots exactly as they were. -/
theorem board_update_spec :
    (∀ (b : Board) (position : Int) (mark : Mark) (h : -1 < position ∧ position < 9),
        b ⟨position.toNat, by omega⟩ = none →
        Board.update b position mark =
          (b.set ⟨position.toNat, by omega⟩ (some mark), true)) ∧
    (∀ (b : Board) (position : Int) (mark : Mark) (h : -1 < position ∧ position < 9),
        b ⟨position.toNat, by omega⟩ ≠ none →
        Board.update b position mark = (b, false)) ∧
    (∀ (b : Board) (position : Int) (mark : Mark),
        ¬(-1 < position ∧ position < 9) →
        Board.update b position mark = (b, false)) ∧
    (∀ (b : Board) (i pos : Fin 9) (v : Option Mark),
        (b.set pos v) pos = v ∧ (i ≠ pos → (b.set pos v) i = b i)) := by
  refine ⟨?_, ?_, ?_, ?_⟩
  · intro b position mark h hblank
    unfold Board.update
    rw [dif_pos h, if_pos hblank]
  · intro b position mark h hocc
    unfold Board.update
    rw [dif_pos h, if_neg hocc]
  · intro b position mark h
    unfold Board.update
    rw [dif_neg h]
  · intro b i pos v
    constructor
    · unfold Board.set
      rw [if_pos rfl]
    · intro hne
      unfold Board.set
      rw [if_neg hne]

/-- Witness for C4 at concrete inputs: updating the blank slot 4 of the
fresh board succeeds and a second update at the now-occupied slot fails,
while the out-of-range position 9 fails on any board. -/
theorem board_update_spec_witness :
    Board.update Board.reset 4 Mark.X =
      (Board.reset.set ⟨(4 : Int).toNat, by omega⟩ (some Mark.X), true) ∧
    Board.update (Board.reset.set 4 (some Mark.X)) 4 Mark.O =
      (Board.reset.set 4 (some Mark.X), false) ∧
    Board.update Board.reset 9 Mark.O = (Board.reset, false) := by
  refine ⟨?_, ?_, ?_⟩
  · exact board_update_spec.1 Board.reset 4 Mark.X (by omega) (by decide)
  · exact board_update_spec.2.1 (Board.reset.set 4 (some Mark.X)) 4 Mark.O
      (by omega) (by decide)
  · exact board_update_spec.2.2.1 Board.reset 9 Mark.O (by omega)

/-! ### Outcome detection (spec §4.1 `checkOutcome`) against `check_state` -/

/-- Game outcome as the spec describes it: a win for a mark, a draw, or a
game still in progress. -/
inductive Outcome : Type where
  | win : Mark → Outcome
  | draw : Outcome
  | inProgress : Outcome
deriving DecidableEq, Repr

/-- The composite outcome the game loop derives from the board: the winner
reported by `Board.check_state`, else a draw when `Board.is_full`, else the
game is still in progress (`TicTacToe.run_game`). -/
def Board.outcomeOf (b : Board) : Outcome :=
  match Board.check_state b with
  | some m => Outcome.win m
  | none => if Board.is_full b then Outcome.draw else Outcome.inProgress

/-- The spec's fixed priority order over the 8 winning lines: rows
top-to-bottom, columns left-to-right, then the two diagonals. -/
def winningLines : List (Fin 9 × Fin 9 × Fin 9) :=
  [(0,1,2),(3,4,5),(6,7,8),(0,3,6),(1,4,7),(2,5,8),(0,4,8),(6,4,2)]

/-- Spec wording: the mark of a fully-matched non-Empty line (all three
cells hold the same non-blank mark), else nothing. -/
def lineMark (b : Board) (t : Fin 9 × Fin 9 × Fin 9) : Option Mark :=
  if (b t.1).isSome ∧ b t.1 = b t.2.1 ∧ b t.1 = b t.2.2 then b t.1 else none

/-- Spec wording of `checkOutcome`: the mark of the first fully-matched
non-Empty line in the fixed priority order; Draw when no line matches and
the board is full; otherwise in progress. -/
def checkOutcomeSpec (b : Board) : Outcome :=
  match winningLines.findSome? (lineMark b) with
  | some m => Outcome.win m
  | none => if ∀ i : Fin 9, b i ≠ none then Outcome.draw else Outcome.inProgress

theorem step_iff : ∀ x y z : Option Mark,
    ((if x.isSome ∧ x = y ∧ x = z then x else none) = none ↔
      ¬(x = y ∧ y = z ∧ z ≠ none)) ∧
    (∀ m, (if x.isSome ∧ x = y ∧ x = z then x else none) = some m →
      (x = y ∧ y = z ∧ z ≠ none) ∧ x = some m) := by
  decide

theorem check_state_eq_spec_aux : ∀ b : Board,
    Board.check_state b = winningLines.findSome? (lineMark b) := by
  intro b
  simp only [winningLines, List.findSome?]
  unfold Board.check_state
  rcases h1 : lineMark b (0,1,2) with _ | m1
  · rw [if_neg ((step_iff (b 0) (b 1) (b 2)).1.mp h1)]
    simp only [h1]
    rcases h2 : lineMark b (3,4,5) with _ | m2
    · rw [if_neg ((step_iff (b 3) (b 4) (b 5)).1.mp h2)]
      simp only [h2]
      rcases h3 : lineMark b (6,7,8) with _ | m3
      · rw [if_neg ((step_iff (b 6) (b 7) (b 8)).1.mp h3)]
        simp only [h3]
        rcases h4 : lineMark b (0,3,6) with _ | m4
        · rw [if_neg ((step_iff (b 0) (b 3) (b 6)).1.mp h4)]
          simp only [h4]
          rcases h5 : lineMark b (1,4,7) with _ | m5
          · rw [if_neg ((step_iff (b 1) (b 4) (b 7)).1.mp h5)]
            simp only [h5]
            rcases h6 : lineMark b (2,5,8) with _ | m6
            · rw [if_neg ((step_iff (b 2) (b 5) (b 8)).1.mp h6)]
              simp only [h6]
              rcases h7 : lineMark b (0,4,8) with _ | m7
              · rw [if_neg ((step_iff (b 0) (b 4) (b 8)).1.mp h7)]
                simp only [h7]
                rcases h8 : lineMark b (6,4,2) with _ | m8
                · rw [if_neg ((step_iff (b 6) (b 4) (b 2)).1.mp h8)]
                · obtain ⟨hc, hx⟩ := (step_iff (b 6) (b 4) (b 2)).2 m8 h8
                  rw [if_pos hc]
                  simp only [h8]
                  exact hx
              · obtain ⟨hc, hx⟩ := (step_iff (b 0) (b 4) (b 8)).2 m7 h7
                rw [if_pos hc]
                simp only [h7]
                exact hx
            · obtain ⟨hc, hx⟩ := (step_iff (b 2) (b 5) (b 8)).2 m6 h6
              rw [if_pos hc]
              simp only [h6]
              exact hx
          · obtain ⟨hc, hx⟩ := (step_iff (b 1) (b 4) (b 7)).2 m5 h5
            rw [if_pos hc]
            simp only [h5]
            exact hx
        · obtain ⟨hc, hx⟩ := (step_iff (b 0) (b 3) (b 6)).2 m4 h4
          rw [if_pos hc]
          simp only [h4]
          exact hx
      · obtain ⟨hc, hx⟩ := (step_iff (b 6) (b 7) (b 8)).2 m3 h3
        rw [if_pos hc]
        simp only [h3]
        exact hx
    · obtain ⟨hc, hx⟩ := (step_iff (b 3) (b 4) (b 5)).2 m2 h2
      rw [if_pos hc]
      simp only [h2]
      exact hx
  · obtain ⟨hc, hx⟩ := (step_iff (b 0) (b 1) (b 2)).2 m1 h1
    rw [if_pos hc]
    simp only [h1]
    exact hx

theorem is_full_iff (b : Board) :
    Board.is_full b = true ↔ ∀ i : Fin 9, b i ≠ none := by
  unfold Board.is_full
  simp [List.all_eq_true, List.mem_finRange, Option.isSome_iff_ne_none]

/-- C3: `check_state` scans the 8 winning lines in the fixed order rows
top-to-bottom, columns left-to-right, then the two diagonals, and returns
the mark of the first fully-matched non-Empty line; the outcome the game
derives from it is Draw when no line matches and the board is full, and
"in progress" otherwise. -/
theorem check_state_matches_spec :
    ∀ b : Board,
      Board.check_state b = winningLines.findSome? (lineMark b) ∧
      Board.outcomeOf b = checkOutcomeSpec b := by
  intro b
  refine ⟨check_state_eq_spec_aux b, ?_⟩
  unfold Board.outcomeOf checkOutcomeSpec
  rw [← check_state_eq_spec_aux b]
  rcases h : Board.check_state b with _ | m
  · simp only [h]
    by_cases hf : ∀ i : Fin 9, b i ≠ none
    · rw [if_pos ((is_full_iff b).mpr hf), if_pos hf]
    · rw [if_neg (fun hc => hf ((is_full_iff b).mp hc)), if_neg hf]
  · simp only [h]

/-! ### The decision engine: scores and the minimax search -/

/-- The values `best_score` ranges over in `AIAgent.process_input` and
`AIAgent.minimax`: the integer terminal scores together with Python's
`float("-inf")` and `float("inf")` sentinels. -/
inductive Score : Type where
  | negInf : Score
  | num : Int → Score
  | posInf : Score
deriving DecidableEq, Repr

/-- Python's `<` on the scores that occur: two floats infinities and
integers. -/
def Score.lt : Score → Score → Bool
  | Score.negInf, Score.negInf => false
  | Score.negInf, _ => true
  | Score.num _, Score.negInf => false
  | Score.num a, Score.num b => a < b
  | Score.num _, Score.posInf => true
  | Score.posInf, _ => false

/-- Python's `max(score, best_score)` (first argument wins ties). -/
def pymax (a b : Score) : Score := if Score.lt a b then b else a

/-- Python's `min(score, best_score)` (first argument wins ties). -/
def pymin (a b : Score) : Score := if Score.lt b a then b else a

/-- The number of blank slots, the measure that shrinks at every
provisional placement of the search. -/
def Board.countEmpty (b : Board) : Nat := (Board.get_available_positions b).length

theorem mem_available (b : Board) (p : Fin 9) :
    p ∈ Board.get_available_positions b ↔ b p = none := by
  unfold Board.get_available_positions
  simp [List.mem_filter, List.mem_finRange, Option.isNone_iff_eq_none]

theorem countP_set_congr (b : Board) (p : Fin 9) (v : Option Mark)
    (l : List (Fin 9)) (hp : p ∉ l) :
    l.countP (fun i => ((Board.set b p v) i).isNone) =
    l.countP (fun i => (b i).isNone) := by
  apply List.countP_congr
  intro i hi
  have hne : i ≠ p := fun h => hp (h ▸ hi)
  simp [Board.set, hne]

theorem countP_set_succ (b : Board) (p : Fin 9) (m : Mark) (hbp : b p = none) :
    ∀ l : List (Fin 9), l.Nodup → p ∈ l →
      l.countP (fun i => ((Board.set b p (some m)) i).isNone) + 1 =
      l.countP (fun i => (b i).isNone) := by
  intro l
  induction l with
  | nil => intro _ hp; exact absurd hp (List.not_mem_nil p)
  | cons a t ih =>
    intro hnd hp
    rcases List.mem_cons.mp hp with rfl | hpt
    · have hnt : p ∉ t := (List.nodup_cons.mp hnd).1
      have h1 : (Board.set b p (some m) p).isNone = false := by
        simp [Board.set]
      have h2 : (b p).isNone = true := by simp [hbp]
      rw [List.countP_cons, List.countP_cons, h1, h2,
        countP_set_congr b p (some m) t hnt]
      simp
    · have hna : a ≠ p := by
        rintro rfl
        exact (List.nodup_cons.mp hnd).1 hpt
      have h1 : (Board.set b p (some m) a).isNone = (b a).isNone := by
        simp [Board.set, hna]
      rw [List.countP_cons, List.countP_cons, h1,
        ← ih (List.nodup_cons.mp hnd).2 hpt]
      omega

theorem countEmpty_set_lt (b : Board) (p : Fin 9)
    (hmem : p ∈ Board.get_available_positions b) (m : Mark) :
    Board.countEmpty (Board.set b p (some m)) < Board.countEmpty b := by
  have hbp : b p = none := (mem_available b p).mp hmem
  unfold Board.countEmpty Board.get_available_positions
  rw [← List.countP_eq_length_filter, ← List.countP_eq_length_filter]
  have := countP_set_succ b p m hbp (List.finRange 9)
    (List.nodup_finRange 9) (List.mem_finRange p)
  omega

/-- `AIAgent.minimax`: the winner check, the draw check, then the
maximizing or minimizing sweep over the open slots, placing the mark,
recursing with the flag flipped, and folding with `max` (resp. `min`)
from `float("-inf")` (resp. `float("inf")`).  The in-place place/undo of
the Python loop leaves the board argument of each recursive call equal to
the parent board with the one extra mark, which is what `Board.set`
expresses; the operational place/undo discipline itself is modelled
separately by `minimaxT` below. -/
def AIAgent.minimax (ai : Mark) (depth : Nat) (b : Board) (is_maximazing : Bool) : Score :=
  let winner := Board.check_state b
  if winner = some ai then Score.num 1
  else if winner = some (Mark.other ai) then Score.num (-1)
  else if Board.is_full b then Score.num 0
  else if is_maximazing then
    (Board.get_available_positions b).attach.foldl
      (fun best_score pos =>
        pymax (AIAgent.minimax ai (depth + 1) (Board.set b pos.1 (some ai)) false)
          best_score)
      Score.negInf
  else
    (Board.get_available_positions b).attach.foldl
      (fun best_score pos =>
        pymin (AIAgent.minimax ai (depth + 1) (Board.set b pos.1 (some (Mark.other ai))) true)
          best_score)
      Score.posInf
termination_by Board.countEmpty b
decreasing_by
  · exact countEmpty_set_lt b pos.1 pos.2 ai
  · exact countEmpty_set_lt b pos.1 pos.2 (Mark.other ai)

/-- `AIAgent.process_input`: try every open slot in ascending order,
score it by `minimax(0, False)` on the board with the engine's mark
placed there, keep the first strictly improving slot, and return the
final `best_move` (`none` when there are no open slots). -/
def AIAgent.process_input (ai : Mark) (b : Board) : Option (Fin 9) :=
  ((Board.get_available_positions b).foldl
    (fun best pos =>
      let score := AIAgent.minimax ai 0 (Board.set b pos (some ai)) false
      if Score.lt best.1 score then (score, some pos) else best)
    (Score.negInf, none)).2

/-! ### Order facts about `Score.lt` and the fold combinators -/

theorem Score.lt_irrefl (a : Score) : Score.lt a a = false := by
  cases a <;> simp [Score.lt]

theorem Score.lt_asymm {a b : Score} (h : Score.lt a b = true) :
    Score.lt b a = false := by
  cases a <;> cases b <;> simp_all [Score.lt] <;> omega

theorem Score.nlt_trans {a b c : Score} (h1 : Score.lt a b = false)
    (h2 : Score.lt b c = false) : Score.lt a c = false := by
  cases a <;> cases b <;> cases c <;> simp_all [Score.lt] <;> omega

theorem Score.nlt_of_lt_of_nlt {s b r : Score} (h1 : Score.lt s b = true)
    (h2 : Score.lt r b = false) : Score.lt r s = false := by
  cases s <;> cases b <;> cases r <;> simp_all [Score.lt] <;> omega

theorem Score.le_antisymm {a b : Score} (h1 : Score.lt a b = false)
    (h2 : Score.lt b a = false) : a = b := by
  cases a <;> cases b <;> simp_all [Score.lt] <;> omega

theorem Score.lt_negInf (a : Score) : Score.lt a Score.negInf = false := by
  cases a <;> simp [Score.lt]

theorem Score.negInf_lt {a : Score} (h : a ≠ Score.negInf) :
    Score.lt Score.negInf a = true := by
  cases a <;> simp_all [Score.lt]

theorem Score.lt_posInf {a : Score} (h : a ≠ Score.posInf) :
    Score.lt a Score.posInf = true := by
  cases a <;> simp_all [Score.lt]

theorem Score.posInf_nlt (a : Score) : Score.lt Score.posInf a = false := by
  cases a <;> simp [Score.lt]

theorem pymax_cases (x y : Score) : pymax x y = x ∨ pymax x y = y := by
  unfold pymax
  by_cases h : Score.lt x y = true
  · rw [if_pos h]; exact Or.inr rfl
  · rw [if_neg h]; exact Or.inl rfl

theorem pymax_ge_left (x y : Score) : Score.lt (pymax x y) x = false := by
  unfold pymax
  by_cases h : Score.lt x y = true
  · rw [if_pos h]; exact Score.lt_asymm h
  · rw [if_neg h]; exact Score.lt_irrefl x

theorem pymax_ge_right (x y : Score) : Score.lt (pymax x y) y = false := by
  unfold pymax
  by_cases h : Score.lt x y = true
  · rw [if_pos h]; exact Score.lt_irrefl y
  · rw [if_neg h]; exact Bool.not_eq_true _ ▸ (by simpa using h)

theorem pymin_cases (x y : Score) : pymin x y = x ∨ pymin x y = y := by
  unfold pymin
  by_cases h : Score.lt y x = true
  · rw [if_pos h]; exact Or.inr rfl
  · rw [if_neg h]; exact Or.inl rfl

theorem pymin_le_left (x y : Score) : Score.lt x (pymin x y) = false := by
  unfold pymin
  by_cases h : Score.lt y x = true
  · rw [if_pos h]; exact Score.lt_asymm h
  · rw [if_neg h]; exact Score.lt_irrefl x

theorem pymin_le_right (x y : Score) : Score.lt y (pymin x y) = false := by
  unfold pymin
  by_cases h : Score.lt y x = true
  · rw [if_pos h]; exact Score.lt_irrefl y
  · rw [if_neg h]; simpa using h

theorem fold_pymax_spec {α : Type} (f : α → Score) :
    ∀ (l : List α) (init : Score),
      (List.foldl (fun best p => pymax (f p) best) init l = init ∨
        ∃ r ∈ l, List.foldl (fun best p => pymax (f p) best) init l = f r) ∧
      Score.lt (List.foldl (fun best p => pymax (f p) best) init l) init = false ∧
      (∀ q ∈ l, Score.lt (List.foldl (fun best p => pymax (f p) best) init l) (f q) = false) := by
  intro l
  induction l with
  | nil =>
    intro init
    exact ⟨Or.inl rfl, Score.lt_irrefl init,
      fun q hq => absurd hq (List.not_mem_nil q)⟩
  | cons a t ih =>
    intro init
    rw [List.foldl_cons]
    obtain ⟨hmem, hge, hub⟩ := ih (pymax (f a) init)
    have hres_a : Score.lt (List.foldl (fun best p => pymax (f p) best) (pymax (f a) init) t)
        (f a) = false := Score.nlt_trans hge (pymax_ge_left (f a) init)
    have hres_init : Score.lt (List.foldl (fun best p => pymax (f p) best) (pymax (f a) init) t)
        init = false := Score.nlt_trans hge (pymax_ge_right (f a) init)
    refine ⟨?_, hres_init, ?_⟩
    · rcases hmem with h | ⟨r, hr, hrr⟩
      · rcases pymax_cases (f a) init with hc | hc
        · exact Or.inr ⟨a, List.mem_cons_self a t, by rw [h, hc]⟩
        · exact Or.inl (by rw [h, hc])
      · exact Or.inr ⟨r, List.mem_cons_of_mem a hr, hrr⟩
    · intro q hq
      rcases List.mem_cons.mp hq with rfl | hqt
      · exact hres_a
      · exact hub q hqt

theorem fold_pymin_spec {α : Type} (f : α → Score) :
    ∀ (l : List α) (init : Score),
      (List.foldl (fun best p => pymin (f p) best) init l = init ∨
        ∃ r ∈ l, List.foldl (fun best p => pymin (f p) best) init l = f r) ∧
      Score.lt init (List.foldl (fun best p => pymin (f p) best) init l) = false ∧
      (∀ q ∈ l, Score.lt (f q) (List.foldl (fun best p => pymin (f p) best) init l) = false) := by
  intro l
  induction l with
  | nil =>
    intro init
    exact ⟨Or.inl rfl, Score.lt_irrefl init,
      fun q hq => absurd hq (List.not_mem_nil q)⟩
  | cons a t ih =>
    intro init
    rw [List.foldl_cons]
    obtain ⟨hmem, hge, hub⟩ := ih (pymin (f a) init)
    have hres_a : Score.lt (f a)
        (List.foldl (fun best p => pymin (f p) best) (pymin (f a) init) t) = false :=
      Score.nlt_trans (pymin_le_left (f a) init) hge
    have hres_init : Score.lt init
        (List.foldl (fun best p => pymin (f p) best) (pymin (f a) init) t) = false :=
      Score.nlt_trans (pymin_le_right (f a) init) hge
    refine ⟨?_, hres_init, ?_⟩
    · rcases hmem with h | ⟨r, hr, hrr⟩
      · rcases pymin_cases (f a) init with hc | hc
        · exact Or.inr ⟨a, List.mem_cons_self a t, by rw [h, hc]⟩
        · exact Or.inl (by rw [h, hc])
      · exact Or.inr ⟨r, List.mem_cons_of_mem a hr, hrr⟩
    · intro q hq
      rcases List.mem_cons.mp hq with rfl | hqt
      · exact hres_a
      · exact hub q hqt

theorem fold_best_spec {α : Type} (f : α → Score) :
    ∀ (l : List α) (s : Score) (mv : Option α),
      (List.foldl (fun best pos => if Score.lt best.1 (f pos) then (f pos, some pos) else best)
          (s, mv) l = (s, mv) ∨
        ∃ r ∈ l,
          List.foldl (fun best pos => if Score.lt best.1 (f pos) then (f pos, some pos) else best)
            (s, mv) l = (f r, some r)) ∧
      Score.lt (List.foldl
          (fun best pos => if Score.lt best.1 (f pos) then (f pos, some pos) else best)
          (s, mv) l).1 s = false ∧
      (∀ q ∈ l,
        Score.lt (List.foldl
            (fun best pos => if Score.lt best.1 (f pos) then (f pos, some pos) else best)
            (s, mv) l).1 (f q) = false) := by
  intro l
  induction l with
  | nil =>
    intro s mv
    exact ⟨Or.inl rfl, Score.lt_irrefl s,
      fun q hq => absurd hq (List.not_mem_nil q)⟩
  | cons a t ih =>
    intro s mv
    rw [List.foldl_cons]
    by_cases hlt : Score.lt (s, mv).1 (f a) = true
    · rw [if_pos hlt]
      obtain ⟨hmem, hge, hub⟩ := ih (f a) (some a)
      refine ⟨?_, ?_, ?_⟩
      · rcases hmem with h | ⟨r, hr, hrr⟩
        · exact Or.inr ⟨a, List.mem_cons_self a t, h⟩
        · exact Or.inr ⟨r, List.mem_cons_of_mem a hr, hrr⟩
      · exact Score.nlt_of_lt_of_nlt hlt hge
      · intro q hq
        rcases List.mem_cons.mp hq with rfl | hqt
        · exact hge
        · exact hub q hqt
    · rw [if_neg hlt]
      obtain ⟨hmem, hge, hub⟩ := ih s mv
      refine ⟨?_, hge, ?_⟩
      · rcases hmem with h | ⟨r, hr, hrr⟩
        · exact Or.inl h
        · exact Or.inr ⟨r, List.mem_cons_of_mem a hr, hrr⟩
      · intro q hq
        rcases List.mem_cons.mp hq with rfl | hqt
        · exact Score.nlt_trans hge (Bool.not_eq_true _ ▸ (by simpa using hlt))
        · exact hub q hqt

theorem foldl_fun_ext {α β : Type} (g g' : β → α → β) :
    ∀ (l : List α) (init : β), (∀ acc x, x ∈ l → g acc x = g' acc x) →
      List.foldl g init l = List.foldl g' init l := by
  intro l
  induction l with
  | nil => intro init _; rfl
  | cons a t ih =>
    intro init hx
    rw [List.foldl_cons, List.foldl_cons, hx init a (List.mem_cons_self a t)]
    exact ih (g' init a) fun acc x hxt => hx acc x (List.mem_cons_of_mem a hxt)

/-! ### Characterising the minimax recursion -/

theorem Mark.other_ne (m : Mark) : Mark.other m ≠ m := by
  cases m <;> simp [Mark.other]

theorem Mark.eq_other_of_ne {m ai : Mark} (h1 : m ≠ ai) : m = Mark.other ai := by
  cases m <;> cases ai <;> simp_all [Mark.other]

theorem available_eq_nil_iff (b : Board) :
    Board.get_available_positions b = [] ↔ Board.is_full b = true := by
  unfold Board.get_available_positions Board.is_full
  simp [List.filter_eq_nil_iff, List.all_eq_true, Option.isNone_iff_eq_none,
    Option.isSome_iff_ne_none]

theorem minimax_win {ai : Mark} {b : Board} (h : Board.check_state b = some ai)
    (d : Nat) (mx : Bool) : AIAgent.minimax ai d b mx = Score.num 1 := by
  rw [AIAgent.minimax]
  simp [h]

theorem minimax_lose {ai : Mark} {b : Board}
    (h : Board.check_state b = some (Mark.other ai)) (d : Nat) (mx : Bool) :
    AIAgent.minimax ai d b mx = Score.num (-1) := by
  rw [AIAgent.minimax]
  have hne : (some (Mark.other ai) : Option Mark) ≠ some ai := by
    simp [Mark.other_ne ai]
  simp [h, hne]

theorem minimax_full {ai : Mark} {b : Board} (h1 : Board.check_state b = none)
    (h2 : Board.is_full b = true) (d : Nat) (mx : Bool) :
    AIAgent.minimax ai d b mx = Score.num 0 := by
  rw [AIAgent.minimax]
  simp [h1, h2]

theorem minimax_max_eq {ai : Mark} {b : Board} (h1 : Board.check_state b = none)
    (h2 : Board.is_full b = false) (d : Nat) :
    AIAgent.minimax ai d b true =
      (Board.get_available_positions b).foldl
        (fun best p => pymax (AIAgent.minimax ai (d + 1) (Board.set b p (some ai)) false) best)
        Score.negInf := by
  rw [AIAgent.minimax]
  simp only [h1, h2]
  rw [← List.foldl_attach (Board.get_available_positions b)
    (fun best p => pymax (AIAgent.minimax ai (d + 1) (Board.set b p (some ai)) false) best)
    Score.negInf]
  simp

theorem minimax_min_eq {ai : Mark} {b : Board} (h1 : Board.check_state b = none)
    (h2 : Board.is_full b = false) (d : Nat) :
    AIAgent.minimax ai d b false =
      (Board.get_available_positions b).foldl
        (fun best p =>
          pymin (AIAgent.minimax ai (d + 1) (Board.set b p (some (Mark.other ai))) true) best)
        Score.posInf := by
  rw [AIAgent.minimax]
  simp only [h1, h2]
  rw [← List.foldl_attach (Board.get_available_positions b)
    (fun best p =>
      pymin (AIAgent.minimax ai (d + 1) (Board.set b p (some (Mark.other ai))) true) best)
    Score.posInf]
  simp

theorem countEmpty_zero_full {b : Board} (h : Board.countEmpty b = 0) :
    Board.is_full b = true := by
  unfold Board.countEmpty at h
  exact (available_eq_nil_iff b).mp (List.length_eq_zero.mp h)

theorem not_full_available_ne_nil {b : Board} (h : Board.is_full b = false) :
    Board.get_available_positions b ≠ [] := by
  intro hc
  rw [(available_eq_nil_iff b).mp hc] at h
  exact Bool.noConfusion h

theorem minimax_terminal_cases (ai : Mark) (b : Board) (d : Nat) (mx : Bool) :
    Board.check_state b = some ai ∨ Board.check_state b = some (Mark.other ai) ∨
      Board.check_state b = none := by
  rcases h : Board.check_state b with _ | m
  · exact Or.inr (Or.inr rfl)
  · by_cases hm : m = ai
    · exact Or.inl (by rw [hm])
    · exact Or.inr (Or.inl (by rw [Mark.eq_other_of_ne hm]))

theorem minimax_bound (ai : Mark) :
    ∀ (n : Nat) (b : Board), Board.countEmpty b ≤ n → ∀ (d : Nat) (mx : Bool),
      ∃ s : Int, AIAgent.minimax ai d b mx = Score.num s ∧ -1 ≤ s ∧ s ≤ 1 := by
  intro n
  induction n with
  | zero =>
    intro b hn d mx
    have hfull : Board.is_full b = true := countEmpty_zero_full (Nat.le_zero.mp hn)
    rcases minimax_terminal_cases ai b d mx with h | h | h
    · exact ⟨1, minimax_win h d mx, by omega, by omega⟩
    · exact ⟨-1, minimax_lose h d mx, by omega, by omega⟩
    · exact ⟨0, minimax_full h hfull d mx, by omega, by omega⟩
  | succ n ih =>
    intro b hn d mx
    rcases minimax_terminal_cases ai b d mx with h | h | h
    · exact ⟨1, minimax_win h d mx, by omega, by omega⟩
    · exact ⟨-1, minimax_lose h d mx, by omega, by omega⟩
    · by_cases hfull : Board.is_full b = true
      · exact ⟨0, minimax_full h hfull d mx, by omega, by omega⟩
      · have hfull' : Board.is_full b = false := by
          revert hfull
          cases Board.is_full b <;> simp
        have hchild : ∀ p ∈ Board.get_available_positions b, ∀ (m : Mark) (d' : Nat) (mx' : Bool),
            ∃ s : Int, AIAgent.minimax ai d' (Board.set b p (some m)) mx' = Score.num s ∧
              -1 ≤ s ∧ s ≤ 1 := by
          intro p hp m d' mx'
          have hlt := countEmpty_set_lt b p hp m
          exact ih (Board.set b p (some m)) (by omega) d' mx'
        obtain ⟨p0, hp0⟩ :=
          List.exists_mem_of_ne_nil _ (not_full_available_ne_nil hfull')
        cases mx with
        | true =>
          rw [minimax_max_eq h hfull' d]
          obtain ⟨hmem, _, hub⟩ := fold_pymax_spec
            (fun p => AIAgent.minimax ai (d + 1) (Board.set b p (some ai)) false)
            (Board.get_available_positions b) Score.negInf
          rcases hmem with hres | ⟨r, hr, hres⟩
          · obtain ⟨s0, hs0, _, _⟩ := hchild p0 hp0 ai (d + 1) false
            have := hub p0 hp0
            rw [hres, hs0] at this
            simp [Score.lt] at this
          · obtain ⟨s, hs, hs1, hs2⟩ := hchild r hr ai (d + 1) false
            exact ⟨s, by rw [hres, hs], hs1, hs2⟩
        | false =>
          rw [minimax_min_eq h hfull' d]
          obtain ⟨hmem, _, hub⟩ := fold_pymin_spec
            (fun p => AIAgent.minimax ai (d + 1) (Board.set b p (some (Mark.other ai))) true)
            (Board.get_available_positions b) Score.posInf
          rcases hmem with hres | ⟨r, hr, hres⟩
          · obtain ⟨s0, hs0, _, _⟩ := hchild p0 hp0 (Mark.other ai) (d + 1) true
            have := hub p0 hp0
            rw [hres, hs0] at this
            simp [Score.lt] at this
          · obtain ⟨s, hs, hs1, hs2⟩ := hchild r hr (Mark.other ai) (d + 1) true
            exact ⟨s, by rw [hres, hs], hs1, hs2⟩

theorem minimax_depth_irrel (ai : Mark) :
    ∀ (n : Nat) (b : Board), Board.countEmpty b ≤ n → ∀ (d d' : Nat) (mx : Bool),
      AIAgent.minimax ai d b mx = AIAgent.minimax ai d' b mx := by
  intro n
  induction n with
  | zero =>
    intro b hn d d' mx
    have hfull : Board.is_full b = true := countEmpty_zero_full (Nat.le_zero.mp hn)
    rcases minimax_terminal_cases ai b d mx with h | h | h
    · rw [minimax_win h d mx, minimax_win h d' mx]
    · rw [minimax_lose h d mx, minimax_lose h d' mx]
    · rw [minimax_full h hfull d mx, minimax_full h hfull d' mx]
  | succ n ih =>
    intro b hn d d' mx
    rcases minimax_terminal_cases ai b d mx with h | h | h
    · rw [minimax_win h d mx, minimax_win h d' mx]
    · rw [minimax_lose h d mx, minimax_lose h d' mx]
    · by_cases hfull : Board.is_full b = true
      · rw [minimax_full h hfull d mx, minimax_full h hfull d' mx]
      · have hfull' : Board.is_full b = false := by
          revert hfull
          cases Board.is_full b <;> simp
        cases mx with
        | true =>
          rw [minimax_max_eq h hfull' d, minimax_max_eq h hfull' d']
          apply foldl_fun_ext
          intro acc p hp
          have hlt := countEmpty_set_lt b p hp ai
          rw [ih (Board.set b p (some ai)) (by omega) (d + 1) (d' + 1) false]
        | false =>
          rw [minimax_min_eq h hfull' d, minimax_min_eq h hfull' d']
          apply foldl_fun_ext
          intro acc p hp
          have hlt := countEmpty_set_lt b p hp (Mark.other ai)
          rw [ih (Board.set b p (some (Mark.other ai))) (by omega) (d + 1) (d' + 1) true]

theorem process_input_spec (ai : Mark) (b : Board) :
    (Board.get_available_positions b = [] → AIAgent.process_input ai b = none) ∧
    (Board.get_available_positions b ≠ [] →
      ∃ r ∈ Board.get_available_positions b,
        AIAgent.process_input ai b = some r ∧
        (∀ q ∈ Board.get_available_positions b,
          Score.lt (AIAgent.minimax ai 0 (Board.set b r (some ai)) false)
            (AIAgent.minimax ai 0 (Board.set b q (some ai)) false) = false)) := by
  constructor
  · intro h
    unfold AIAgent.process_input
    rw [h]
    rfl
  · intro hne
    unfold AIAgent.process_input
    obtain ⟨hmem, hge, hub⟩ := fold_best_spec
      (fun p => AIAgent.minimax ai 0 (Board.set b p (some ai)) false)
      (Board.get_available_positions b) Score.negInf none
    rcases hmem with hres | ⟨r, hr, hres⟩
    · obtain ⟨p0, hp0⟩ := List.exists_mem_of_ne_nil _ hne
      obtain ⟨s0, hs0, _, _⟩ := minimax_bound ai
        (Board.countEmpty (Board.set b p0 (some ai))) (Board.set b p0 (some ai))
        (Nat.le_refl _) 0 false
      have hcontra := hub p0 hp0
      rw [hres, hs0] at hcontra
      simp [Score.lt] at hcontra
    · refine ⟨r, hr, ?_, ?_⟩
      · exact congrArg Prod.snd hres
      · intro q hq
        have h := hub q hq
        rw [hres] at h
        simpa using h

theorem process_input_max (ai : Mark) (b : Board) (h1 : Board.check_state b = none)
    (h2 : Board.is_full b = false) :
    ∃ r ∈ Board.get_available_positions b,
      AIAgent.process_input ai b = some r ∧
      AIAgent.minimax ai 0 (Board.set b r (some ai)) false = AIAgent.minimax ai 0 b true := by
  obtain ⟨r, hr, hpi, hub⟩ := (process_input_spec ai b).2 (not_full_available_ne_nil h2)
  refine ⟨r, hr, hpi, ?_⟩
  rw [minimax_max_eq h1 h2 0]
  have hconv : (Board.get_available_positions b).foldl
      (fun best p => pymax (AIAgent.minimax ai (0 + 1) (Board.set b p (some ai)) false) best)
      Score.negInf
      = (Board.get_available_positions b).foldl
      (fun best p => pymax (AIAgent.minimax ai 0 (Board.set b p (some ai)) false) best)
      Score.negInf := by
    apply foldl_fun_ext
    intro acc p hp
    rw [minimax_depth_irrel ai (Board.countEmpty (Board.set b p (some ai)))
      (Board.set b p (some ai)) (Nat.le_refl _) (0 + 1) 0 false]
  rw [hconv]
  obtain ⟨hmem, _, hub2⟩ := fold_pymax_spec
    (fun p => AIAgent.minimax ai 0 (Board.set b p (some ai)) false)
    (Board.get_available_positions b) Score.negInf
  rcases hmem with hres | ⟨r2, hr2, hres⟩
  · obtain ⟨s, hs, _, _⟩ := minimax_bound ai
      (Board.countEmpty (Board.set b r (some ai))) (Board.set b r (some ai))
      (Nat.le_refl _) 0 false
    have hcontra := hub2 r hr
    rw [hres, hs] at hcontra
    simp [Score.lt] at hcontra
  · have ha := hub r2 hr2
    have hb := hub2 r hr
    rw [hres] at hb
    rw [hres]
    exact (Score.le_antisymm hb ha).symm

/-! ### The operational place/undo search (state-threaded model) -/

/-- `AIAgent.minimax` as Python executes it: the board is threaded through
the loop, each iteration places the mark (`self.game_board.board[pos] =
...`), recurses, then blanks the slot again (`... = " "`).  `fuel` bounds
the recursion depth; `countEmpty b` fuel is enough (see `minimaxT_eq`). -/
def AIAgent.minimaxT (ai : Mark) (fuel : Nat) (depth : Nat) (b : Board)
    (is_maximazing : Bool) : Score × Board :=
  let winner := Board.check_state b
  if winner = some ai then (Score.num 1, b)
  else if winner = some (Mark.other ai) then (Score.num (-1), b)
  else if Board.is_full b then (Score.num 0, b)
  else
    match fuel with
    | 0 => (Score.num 0, b)
    | fuel' + 1 =>
      if is_maximazing then
        (Board.get_available_positions b).foldl
          (fun acc pos =>
            let b1 := Board.set acc.2 pos (some ai)
            let r := AIAgent.minimaxT ai fuel' (depth + 1) b1 false
            let b3 := Board.set r.2 pos none
            (pymax r.1 acc.1, b3))
          (Score.negInf, b)
      else
        (Board.get_available_positions b).foldl
          (fun acc pos =>
            let b1 := Board.set acc.2 pos (some (Mark.other ai))
            let r := AIAgent.minimaxT ai fuel' (depth + 1) b1 true
            let b3 := Board.set r.2 pos none
            (pymin r.1 acc.1, b3))
          (Score.posInf, b)

/-- `AIAgent.process_input` as Python executes it, with the trial
place/undo mutations threaded through; 9 units of fuel cover any board. -/
def AIAgent.process_inputT (ai : Mark) (b : Board) : Option (Fin 9) × Board :=
  let r := (Board.get_available_positions b).foldl
    (fun acc pos =>
      let b1 := Board.set acc.2 pos (some ai)
      let rec1 := AIAgent.minimaxT ai 9 0 b1 false
      let b3 := Board.set rec1.2 pos none
      if Score.lt acc.1.1 rec1.1 then ((rec1.1, some pos), b3) else (acc.1, b3))
    ((Score.negInf, none), b)
  (r.1.2, r.2)

theorem set_restore (b : Board) (p : Fin 9) (hbp : b p = none) (v : Option Mark) :
    Board.set (Board.set b p v) p none = b := by
  funext j
  unfold Board.set
  by_cases hj : j = p
  · rw [if_pos hj, hj, hbp]
  · rw [if_neg hj, if_neg hj]

theorem countEmpty_le_nine (b : Board) : Board.countEmpty b ≤ 9 := by
  unfold Board.countEmpty Board.get_available_positions
  calc (List.filter (fun i => (b i).isNone) (List.finRange 9)).length
      ≤ (List.finRange 9).length := List.length_filter_le _ _
    _ = 9 := by simp

theorem minimaxT_win {ai : Mark} {b : Board} (h : Board.check_state b = some ai)
    (fuel d : Nat) (mx : Bool) : AIAgent.minimaxT ai fuel d b mx = (Score.num 1, b) := by
  rw [AIAgent.minimaxT.eq_def]
  simp [h]

theorem minimaxT_lose {ai : Mark} {b : Board}
    (h : Board.check_state b = some (Mark.other ai)) (fuel d : Nat) (mx : Bool) :
    AIAgent.minimaxT ai fuel d b mx = (Score.num (-1), b) := by
  rw [AIAgent.minimaxT.eq_def]
  have hne : (some (Mark.other ai) : Option Mark) ≠ some ai := by
    simp [Mark.other_ne ai]
  simp [h, hne]

theorem minimaxT_full {ai : Mark} {b : Board} (h1 : Board.check_state b = none)
    (h2 : Board.is_full b = true) (fuel d : Nat) (mx : Bool) :
    AIAgent.minimaxT ai fuel d b mx = (Score.num 0, b) := by
  rw [AIAgent.minimaxT.eq_def]
  simp [h1, h2]

theorem foldT_eq (ai : Mark) (fuel d' : Nat) (m : Mark) (mx' : Bool)
    (comb : Score → Score → Score)
    (hIH : ∀ b' : Board, Board.countEmpty b' ≤ fuel →
      AIAgent.minimaxT ai fuel d' b' mx' = (AIAgent.minimax ai d' b' mx', b')) :
    ∀ (l : List (Fin 9)) (b : Board), (∀ p ∈ l, b p = none) →
      (∀ p ∈ l, Board.countEmpty (Board.set b p (some m)) ≤ fuel) → ∀ s : Score,
      List.foldl (fun acc pos =>
          (comb (AIAgent.minimaxT ai fuel d' (Board.set acc.2 pos (some m)) mx').1 acc.1,
            Board.set (AIAgent.minimaxT ai fuel d' (Board.set acc.2 pos (some m)) mx').2
              pos none))
        (s, b) l
      = (List.foldl
          (fun best pos => comb (AIAgent.minimax ai d' (Board.set b pos (some m)) mx') best)
          s l, b) := by
  intro l
  induction l with
  | nil => intro b _ _ s; rfl
  | cons a t ih =>
    intro b hblank hfuel s
    rw [List.foldl_cons, List.foldl_cons]
    have hba : b a = none := hblank a (List.mem_cons_self a t)
    have hca := hfuel a (List.mem_cons_self a t)
    have hstep := hIH (Board.set b a (some m)) hca
    rw [hstep]
    rw [set_restore b a hba (some m)]
    exact ih b (fun p hp => hblank p (List.mem_cons_of_mem a hp))
      (fun p hp => hfuel p (List.mem_cons_of_mem a hp)) _

theorem minimaxT_eq (ai : Mark) :
    ∀ (fuel : Nat) (b : Board), Board.countEmpty b ≤ fuel → ∀ (d : Nat) (mx : Bool),
      AIAgent.minimaxT ai fuel d b mx = (AIAgent.minimax ai d b mx, b) := by
  intro fuel
  induction fuel with
  | zero =>
    intro b hn d mx
    have hfull : Board.is_full b = true := countEmpty_zero_full (Nat.le_zero.mp hn)
    rcases minimax_terminal_cases ai b d mx with h | h | h
    · rw [minimaxT_win h 0 d mx, minimax_win h d mx]
    · rw [minimaxT_lose h 0 d mx, minimax_lose h d mx]
    · rw [minimaxT_full h hfull 0 d mx, minimax_full h hfull d mx]
  | succ fuel ih =>
    intro b hn d mx
    rcases minimax_terminal_cases ai b d mx with h | h | h
    · rw [minimaxT_win h (fuel + 1) d mx, minimax_win h d mx]
    · rw [minimaxT_lose h (fuel + 1) d mx, minimax_lose h d mx]
    · by_cases hfull : Board.is_full b = true
      · rw [minimaxT_full h hfull (fuel + 1) d mx, minimax_full h hfull d mx]
      · have hfull' : Board.is_full b = false := by
          revert hfull
          cases Board.is_full b <;> simp
        have hblank : ∀ p ∈ Board.get_available_positions b, b p = none :=
          fun p hp => (mem_available b p).mp hp
        have hfuel : ∀ (m : Mark), ∀ p ∈ Board.get_available_positions b,
            Board.countEmpty (Board.set b p (some m)) ≤ fuel := by
          intro m p hp
          have := countEmpty_set_lt b p hp m
          omega
        cases mx with
        | true =>
          rw [AIAgent.minimaxT.eq_def]
          simp only [h, hfull']
          rw [minimax_max_eq h hfull' d]
          have := foldT_eq ai fuel (d + 1) ai false pymax (fun b' hb' => ih b' hb' (d + 1) false)
            (Board.get_available_positions b) b hblank (hfuel ai) Score.negInf
          simpa using this
        | false =>
          rw [AIAgent.minimaxT.eq_def]
          simp only [h, hfull']
          rw [minimax_min_eq h hfull' d]
          have := foldT_eq ai fuel (d + 1) (Mark.other ai) true pymin
            (fun b' hb' => ih b' hb' (d + 1) true)
            (Board.get_available_positions b) b hblank (hfuel (Mark.other ai)) Score.posInf
          simpa using this

theorem foldPT_eq (ai : Mark) :
    ∀ (l : List (Fin 9)) (b : Board), (∀ p ∈ l, b p = none) →
      ∀ best : Score × Option (Fin 9),
      List.foldl (fun acc pos =>
          if Score.lt acc.1.1 (AIAgent.minimaxT ai 9 0 (Board.set acc.2 pos (some ai)) false).1
          then (((AIAgent.minimaxT ai 9 0 (Board.set acc.2 pos (some ai)) false).1, some pos),
                Board.set (AIAgent.minimaxT ai 9 0 (Board.set acc.2 pos (some ai)) false).2
                  pos none)
          else (acc.1,
                Board.set (AIAgent.minimaxT ai 9 0 (Board.set acc.2 pos (some ai)) false).2
                  pos none))
        (best, b) l
      = (List.foldl (fun bst pos =>
          if Score.lt bst.1 (AIAgent.minimax ai 0 (Board.set b pos (some ai)) false)
          then (AIAgent.minimax ai 0 (Board.set b pos (some ai)) false, some pos) else bst)
          best l, b) := by
  intro l
  induction l with
  | nil => intro b _ best; rfl
  | cons a t ih =>
    intro b hblank best
    rw [List.foldl_cons, List.foldl_cons]
    have hT := minimaxT_eq ai 9 (Board.set b a (some ai)) (countEmpty_le_nine _) 0 false
    rw [hT]
    rw [set_restore b a (hblank a (List.mem_cons_self a t)) (some ai)]
    by_cases hc : Score.lt best.1 (AIAgent.minimax ai 0 (Board.set b a (some ai)) false) = true
    · rw [if_pos hc, if_pos hc]
      exact ih b (fun p hp => hblank p (List.mem_cons_of_mem a hp)) _
    · rw [if_neg hc, if_neg hc]
      exact ih b (fun p hp => hblank p (List.mem_cons_of_mem a hp)) _

theorem process_inputT_eq (ai : Mark) (b : Board) :
    AIAgent.process_inputT ai b = (AIAgent.process_input ai b, b) := by
  have h := foldPT_eq ai (Board.get_available_positions b) b
    (fun p hp => (mem_available b p).mp hp) (Score.negInf, none)
  simp only [AIAgent.process_inputT, AIAgent.process_input]
  rw [h]

/-- C2: after a call to the top-level move selection, including all its
recursive minimax calls, every one of the 9 slots holds exactly the value
it held immediately before the call: the state-threaded operational model
`process_inputT` returns the board unchanged — every provisional placement
is undone — and computes the very move of the functional model. -/
theorem process_input_leaves_board :
    ∀ (ai : Mark) (b : Board),
      (∀ i : Fin 9, (AIAgent.process_inputT ai b).2 i = b i) ∧
      (AIAgent.process_inputT ai b).1 = AIAgent.process_input ai b := by
  intro ai b
  exact ⟨fun i => by rw [process_inputT_eq ai b], by rw [process_inputT_eq ai b]⟩

/-- C8: every index the engine stores is legal: when at least one slot is
blank the chosen index is an element of `get_available_positions` (never
an occupied slot, and the index type rules out an out-of-range slot); with
no blank slot no index is returned — the stored position is the `None`
sentinel. -/
theorem process_input_legal :
    ∀ (ai : Mark) (b : Board),
      (Board.get_available_positions b ≠ [] →
        ∃ r, AIAgent.process_input ai b = some r ∧
          r ∈ Board.get_available_positions b) ∧
      (Board.get_available_positions b = [] → AIAgent.process_input ai b = none) := by
  intro ai b
  constructor
  · intro hne
    obtain ⟨r, hr, hpi, _⟩ := (process_input_spec ai b).2 hne
    exact ⟨r, hpi, hr⟩
  · exact (process_input_spec ai b).1

/-- Witness for C8: on the fresh board a legal index is produced, and on a
full board the `None` sentinel is produced. -/
theorem process_input_legal_witness :
    (∃ r, AIAgent.process_input Mark.X Board.reset = some r ∧
      r ∈ Board.get_available_positions Board.reset) ∧
    AIAgent.process_input Mark.O (fun _ => some Mark.X) = none :=
  ⟨(process_input_legal Mark.X Board.reset).1 (by decide),
   (process_input_legal Mark.O (fun _ => some Mark.X)).2 (by decide)⟩

/-- C9: the search terminates: each recursive call of `minimax` works on a
board with strictly fewer blank slots (every provisional placement fills
one), the measure is bounded by the fixed 9-slot board, and `countEmpty b`
units of fuel make the fuel-indexed operational search `minimaxT` run to
completion, agreeing with the total recursive `minimax`. -/
theorem minimax_terminates :
    (∀ (b : Board) (p : Fin 9), p ∈ Board.get_available_positions b → ∀ m : Mark,
      Board.countEmpty (Board.set b p (some m)) < Board.countEmpty b) ∧
    (∀ b : Board, Board.countEmpty b ≤ 9) ∧
    (∀ (ai : Mark) (fuel : Nat) (b : Board), Board.countEmpty b ≤ fuel →
      ∀ (d : Nat) (mx : Bool),
        AIAgent.minimaxT ai fuel d b mx = (AIAgent.minimax ai d b mx, b)) :=
  ⟨fun b p hp m => countEmpty_set_lt b p hp m, countEmpty_le_nine,
   fun ai fuel b h d mx => minimaxT_eq ai fuel b h d mx⟩

/-- Witness for C9 at concrete inputs: placing a mark on the fresh board
drops the blank count from 9 to 8, and 9 units of fuel reproduce
`minimax` on the fresh board. -/
theorem minimax_terminates_witness :
    Board.countEmpty (Board.set Board.reset 0 (some Mark.X)) < Board.countEmpty Board.reset ∧
    AIAgent.minimaxT Mark.X 9 3 (Board.set Board.reset 0 (some Mark.X)) false =
      (AIAgent.minimax Mark.X 3 (Board.set Board.reset 0 (some Mark.X)) false,
        Board.set Board.reset 0 (some Mark.X)) :=
  ⟨minimax_terminates.1 Board.reset 0 (by decide) Mark.X,
   minimax_terminates.2.2 Mark.X 9 (Board.set Board.reset 0 (some Mark.X)) (by decide) 3 false⟩

/-! ### Immediate wins and blocks (C5, C6) -/

theorem is_full_false_of_blank {b : Board} {p : Fin 9} (h : b p = none) :
    Board.is_full b = false := by
  by_cases hf : Board.is_full b = true
  · exact absurd h ((is_full_iff b).mp hf p)
  · revert hf
    cases Board.is_full b <;> simp

theorem set_apply_ne (b : Board) (q p : Fin 9) (v : Option Mark) (h : p ≠ q) :
    Board.set b q v p = b p := by
  unfold Board.set
  rw [if_neg h]

theorem set_apply_self (b : Board) (q : Fin 9) (v : Option Mark) :
    Board.set b q v q = v := by
  unfold Board.set
  rw [if_pos rfl]

theorem check_state_none_iff (b : Board) :
    Board.check_state b = none ↔ ∀ t ∈ winningLines, lineMark b t = none := by
  rw [check_state_eq_spec_aux]
  exact List.findSome?_eq_none_iff

theorem check_state_some_line {b : Board} {m : Mark}
    (h : Board.check_state b = some m) :
    ∃ t ∈ winningLines, lineMark b t = some m := by
  rw [check_state_eq_spec_aux] at h
  exact List.exists_of_findSome?_eq_some h

theorem lineMark_some_cells {b : Board} {t : Fin 9 × Fin 9 × Fin 9} {m : Mark}
    (h : lineMark b t = some m) :
    b t.1 = some m ∧ b t.2.1 = some m ∧ b t.2.2 = some m := by
  unfold lineMark at h
  by_cases hc : (b t.1).isSome ∧ b t.1 = b t.2.1 ∧ b t.1 = b t.2.2
  · rw [if_pos hc] at h
    exact ⟨h, hc.2.1 ▸ h, hc.2.2 ▸ h⟩
  · rw [if_neg hc] at h
    exact absurd h (Option.noConfusion)

theorem lineMark_of_cells {b : Board} {t : Fin 9 × Fin 9 × Fin 9} {m : Mark}
    (h1 : b t.1 = some m) (h2 : b t.2.1 = some m) (h3 : b t.2.2 = some m) :
    lineMark b t = some m := by
  unfold lineMark
  rw [if_pos ⟨by rw [h1]; rfl, by rw [h1, h2], by rw [h1, h3]⟩]
  exact h1

/-- Cell `p` blocks an opponent threat: some winning line holds the
opponent's mark on its two other cells while `p` itself is blank. -/
def isBlockingCell (b : Board) (opp : Mark) (p : Fin 9) : Prop :=
  ∃ t ∈ winningLines, b p = none ∧
    ((t.1 = p ∧ b t.2.1 = some opp ∧ b t.2.2 = some opp) ∨
     (t.2.1 = p ∧ b t.1 = some opp ∧ b t.2.2 = some opp) ∨
     (t.2.2 = p ∧ b t.1 = some opp ∧ b t.2.1 = some opp))

instance (b : Board) (opp : Mark) (p : Fin 9) : Decidable (isBlockingCell b opp p) := by
  unfold isBlockingCell
  infer_instance

/-- C5 (amended): whenever the game is undecided and some open slot would
complete a winning line for the engine's mark, the move selection returns
an open slot whose trial minimax score is 1 — a forced-win move — though
not necessarily the completing slot itself. -/
theorem process_input_winning_score :
    ∀ (ai : Mark) (b : Board) (p : Fin 9),
      Board.check_state b = none →
      b p = none →
      Board.check_state (Board.set b p (some ai)) = some ai →
      ∃ r ∈ Board.get_available_positions b,
        AIAgent.process_input ai b = some r ∧
        AIAgent.minimax ai 0 (Board.set b r (some ai)) false = Score.num 1 := by
  intro ai b p h0 hp hw
  have hfull : Board.is_full b = false := is_full_false_of_blank hp
  obtain ⟨r, hr, hpi, hub⟩ := (process_input_spec ai b).2 (not_full_available_ne_nil hfull)
  have hpmem : p ∈ Board.get_available_positions b := (mem_available b p).mpr hp
  have hfp : AIAgent.minimax ai 0 (Board.set b p (some ai)) false = Score.num 1 :=
    minimax_win hw 0 false
  have h1 := hub p hpmem
  rw [hfp] at h1
  obtain ⟨s, hs, hs1, hs2⟩ := minimax_bound ai
    (Board.countEmpty (Board.set b r (some ai))) (Board.set b r (some ai))
    (Nat.le_refl _) 0 false
  rw [hs] at h1
  have hseq : s = 1 := by
    simp [Score.lt] at h1
    omega
  exact ⟨r, hr, hpi, by rw [hs, hseq]⟩

/-- The board of the C5 counterexample: `X` on slots 2 and 5 (column
{2,5,8} one move from completion), `O` on slots 3 and 7. -/
def boardC5 : Board := fun i =>
  if i = 2 ∨ i = 5 then some Mark.X else if i = 3 ∨ i = 7 then some Mark.O else none

/-- C5 counterexample: slot 8 is the unique open slot completing a winning
line for the engine's mark `X` on `boardC5`, yet the move selection
returns slot 0 — an equally scored forced win found earlier in the
ascending sweep — not the completing slot. -/
theorem process_input_win_counterexample :
    Board.check_state boardC5 = none ∧
    boardC5 8 = none ∧
    Board.check_state (Board.set boardC5 8 (some Mark.X)) = some Mark.X ∧
    (∀ q : Fin 9, q ≠ 8 → boardC5 q = none →
      Board.check_state (Board.set boardC5 q (some Mark.X)) ≠ some Mark.X) ∧
    AIAgent.process_input Mark.X boardC5 = some 0 := by
  refine ⟨by decide, by decide, by decide, by decide, ?_⟩
  have h : (AIAgent.process_inputT Mark.X boardC5).1 = some 0 := by decide
  rw [process_inputT_eq Mark.X boardC5] at h
  exact h

/-- The board used to witness the amended C5 theorem: `X` on slots 0 and 1,
with slot 2 completing the top row. -/
def boardW5 : Board := fun i =>
  if i = 0 ∨ i = 1 then some Mark.X else none

/-- Witness for the amended C5 theorem at a concrete input. -/
theorem process_input_winning_score_witness :
    ∃ r ∈ Board.get_available_positions boardW5,
      AIAgent.process_input Mark.X boardW5 = some r ∧
      AIAgent.minimax Mark.X 0 (Board.set boardW5 r (some Mark.X)) false = Score.num 1 :=
  process_input_winning_score Mark.X boardW5 2 (by decide) (by decide) (by decide)

/-- C6 (amended): when the game is undecided, slot `p` blocks an opponent
threat, no open slot completes a winning line for the engine, and the
blocking move's trial score beats −1 (the opponent holds no second winning
resource), the move selection returns the blocking slot: every
non-blocking trial lets the opponent complete the threatened line at once
and scores exactly −1. -/
theorem process_input_blocking :
    ∀ (ai : Mark) (b : Board) (p : Fin 9),
      Board.check_state b = none →
      isBlockingCell b (Mark.other ai) p →
      (∀ q : Fin 9, b q = none →
        Board.check_state (Board.set b q (some ai)) ≠ some ai) →
      Score.lt (Score.num (-1))
        (AIAgent.minimax ai 0 (Board.set b p (some ai)) false) = true →
      AIAgent.process_input ai b = some p := by
  intro ai b p h0 hblock hnowin hgood
  obtain ⟨t, ht, hpblank, hcells⟩ := hblock
  have hpmem : p ∈ Board.get_available_positions b := (mem_available b p).mpr hpblank
  have hfull : Board.is_full b = false := is_full_false_of_blank hpblank
  obtain ⟨r, hr, hpi, hub⟩ := (process_input_spec ai b).2 (not_full_available_ne_nil hfull)
  have hother : ∀ q ∈ Board.get_available_positions b, q ≠ p →
      AIAgent.minimax ai 0 (Board.set b q (some ai)) false = Score.num (-1) := by
    intro q hq hqp
    have hbq : b q = none := (mem_available b q).mp hq
    have hcqnone : Board.check_state (Board.set b q (some ai)) = none := by
      rcases hcs : Board.check_state (Board.set b q (some ai)) with _ | m
      · rfl
      · exfalso
        obtain ⟨t', ht', hlm⟩ := check_state_some_line hcs
        obtain ⟨hc1, hc2, hc3⟩ := lineMark_some_cells hlm
        by_cases hqt : t'.1 = q ∨ t'.2.1 = q ∨ t'.2.2 = q
        · have hm : m = ai := by
            rcases hqt with h | h | h
            · rw [h, set_apply_self] at hc1
              exact (Option.some.inj hc1).symm
            · rw [h, set_apply_self] at hc2
              exact (Option.some.inj hc2).symm
            · rw [h, set_apply_self] at hc3
              exact (Option.some.inj hc3).symm
          exact hnowin q hbq (hm ▸ hcs)
        · push_neg at hqt
          rw [set_apply_ne b q t'.1 (some ai) hqt.1] at hc1
          rw [set_apply_ne b q t'.2.1 (some ai) hqt.2.1] at hc2
          rw [set_apply_ne b q t'.2.2 (some ai) hqt.2.2] at hc3
          have hlb : lineMark b t' = some m := lineMark_of_cells hc1 hc2 hc3
          have := (check_state_none_iff b).mp h0 t' ht'
          rw [hlb] at this
          exact Option.noConfusion this
    have hcqp : Board.set b q (some ai) p = none := by
      rw [set_apply_ne b q p (some ai) (Ne.symm hqp)]
      exact hpblank
    have hcqfull : Board.is_full (Board.set b q (some ai)) = false :=
      is_full_false_of_blank hcqp
    have hgp_line : lineMark
        (Board.set (Board.set b q (some ai)) p (some (Mark.other ai))) t =
        some (Mark.other ai) := by
      have hset : Board.set (Board.set b q (some ai)) p (some (Mark.other ai)) p =
          some (Mark.other ai) := set_apply_self _ p _
      have hkeep : ∀ x : Fin 9, b x = some (Mark.other ai) →
          Board.set (Board.set b q (some ai)) p (some (Mark.other ai)) x =
          some (Mark.other ai) := by
        intro x hx
        have hxp : x ≠ p := by
          intro he
          rw [he, hpblank] at hx
          exact Option.noConfusion hx
        have hxq : x ≠ q := by
          intro he
          rw [he, hbq] at hx
          exact Option.noConfusion hx
        rw [set_apply_ne _ p x _ hxp, set_apply_ne b q x _ hxq]
        exact hx
      rcases hcells with ⟨he, h2, h3⟩ | ⟨he, h2, h3⟩ | ⟨he, h2, h3⟩
      · exact lineMark_of_cells (he ▸ hset) (hkeep _ h2) (hkeep _ h3)
      · exact lineMark_of_cells (hkeep _ h2) (he ▸ hset) (hkeep _ h3)
      · exact lineMark_of_cells (hkeep _ h2) (hkeep _ h3) (he ▸ hset)
    have hgpwin : Board.check_state
        (Board.set (Board.set b q (some ai)) p (some (Mark.other ai))) =
        some (Mark.other ai) := by
      rcases hcs : Board.check_state
          (Board.set (Board.set b q (some ai)) p (some (Mark.other ai))) with _ | m
      · exfalso
        have := (check_state_none_iff _).mp hcs t ht
        rw [hgp_line] at this
        exact Option.noConfusion this
      · by_cases hm : m = ai
        · exfalso
          obtain ⟨t', ht', hlm⟩ := check_state_some_line hcs
          obtain ⟨hc1, hc2, hc3⟩ := lineMark_some_cells hlm
          rw [hm] at hc1 hc2 hc3
          have hnp : ∀ x : Fin 9,
              Board.set (Board.set b q (some ai)) p (some (Mark.other ai)) x =
                some ai → x ≠ p := by
            intro x hx he
            rw [he, set_apply_self] at hx
            exact Mark.other_ne ai (Option.some.inj hx)
          have hb1 : Board.set b q (some ai) t'.1 = some ai := by
            rw [← set_apply_ne (Board.set b q (some ai)) p t'.1
              (some (Mark.other ai)) (hnp t'.1 hc1)]
            exact hc1
          have hb2 : Board.set b q (some ai) t'.2.1 = some ai := by
            rw [← set_apply_ne (Board.set b q (some ai)) p t'.2.1
              (some (Mark.other ai)) (hnp t'.2.1 hc2)]
            exact hc2
          have hb3 : Board.set b q (some ai) t'.2.2 = some ai := by
            rw [← set_apply_ne (Board.set b q (some ai)) p t'.2.2
              (some (Mark.other ai)) (hnp t'.2.2 hc3)]
            exact hc3
          have hlb : lineMark (Board.set b q (some ai)) t' = some ai :=
            lineMark_of_cells hb1 hb2 hb3
          have := (check_state_none_iff _).mp hcqnone t' ht'
          rw [hlb] at this
          exact Option.noConfusion this
        · exact congrArg some (Mark.eq_other_of_ne hm)
    obtain ⟨s, hs, hs1, hs2⟩ := minimax_bound ai
      (Board.countEmpty (Board.set b q (some ai))) (Board.set b q (some ai))
      (Nat.le_refl _) 0 false
    have hsfold := hs
    rw [minimax_min_eq hcqnone hcqfull 0] at hsfold
    obtain ⟨_, _, hlbnd⟩ := fold_pymin_spec
      (fun x => AIAgent.minimax ai (0 + 1)
        (Board.set (Board.set b q (some ai)) x (some (Mark.other ai))) true)
      (Board.get_available_positions (Board.set b q (some ai))) Score.posInf
    have hpmem' : p ∈ Board.get_available_positions (Board.set b q (some ai)) :=
      (mem_available _ p).mpr hcqp
    have h1 := hlbnd p hpmem'
    rw [minimax_lose hgpwin (0 + 1) true] at h1
    rw [hsfold] at h1
    have hseq : s = -1 := by
      simp [Score.lt] at h1
      omega
    rw [hs, hseq]
  have hrp : r = p := by
    by_contra hne
    have hfr := hother r hr hne
    have h1 := hub p hpmem
    rw [hfr] at h1
    rw [hgood] at h1
    exact Bool.noConfusion h1
  rw [hrp] at hpi
  exact hpi

/-- Evaluation bridge: `minimax` agrees with the kernel-computable
fuel-indexed search at fuel 9, which suffices for any board. -/
theorem minimax_eval (ai : Mark) (d : Nat) (b : Board) (mx : Bool) :
    AIAgent.minimax ai d b mx = (AIAgent.minimaxT ai 9 d b mx).1 := by
  rw [minimaxT_eq ai 9 b (countEmpty_le_nine b) d mx]

/-- The board of the C6 counterexample: `X` on slot 0, `O` on slots 2, 4
and 8 — two simultaneous `O` threats (slot 5 on {2,5,8} and slot 6 on
{2,4,6}). -/
def boardC6 : Board := fun i =>
  if i = 0 then some Mark.X else if i = 2 ∨ i = 4 ∨ i = 8 then some Mark.O else none

/-- C6 counterexample: on `boardC6` the opponent `O` has two marks on a
line with the third slot open (slot 5 blocks {2,5,8}), no open slot
completes a line for the engine `X`, yet the move selection returns slot
1, which blocks no threatened line: with a double threat every trial
scores −1 and the first open slot wins the tie-break. -/
theorem process_input_block_counterexample :
    Board.check_state boardC6 = none ∧
    isBlockingCell boardC6 Mark.O 5 ∧
    (∀ q : Fin 9, boardC6 q = none →
      Board.check_state (Board.set boardC6 q (some Mark.X)) ≠ some Mark.X) ∧
    AIAgent.process_input Mark.X boardC6 = some 1 ∧
    ¬isBlockingCell boardC6 Mark.O 1 := by
  refine ⟨by decide, by decide, by decide, ?_, by decide⟩
  have h : (AIAgent.process_inputT Mark.X boardC6).1 = some 1 := by decide
  rw [process_inputT_eq Mark.X boardC6] at h
  exact h

/-- The board used to witness the amended C6 theorem: `O` threatens the
top row at slot 2; `X` holds slots 4 and 8. -/
def boardW6 : Board := fun i =>
  if i = 0 ∨ i = 1 then some Mark.O else if i = 4 ∨ i = 8 then some Mark.X else none

/-- Witness for the amended C6 theorem at a concrete input. -/
theorem process_input_blocking_witness :
    AIAgent.process_input Mark.X boardW6 = some 2 :=
  process_input_blocking Mark.X boardW6 2 (by decide) (by decide) (by decide)
    (by rw [minimax_eval]; decide)

/-! ### Certificate checkers for minimax value bounds -/

/-- Move ordering used only to make the certificate checkers fast:
immediate wins, then blocks, then the centre, then corners, then every
open slot again.  Always a sublist (with duplicates) of the open slots. -/
def heurOrder (b : Board) (mover : Mark) : List (Fin 9) :=
  ((Board.get_available_positions b).filter fun p =>
    decide (Board.check_state (Board.set b p (some mover)) = some mover)) ++
  ((Board.get_available_positions b).filter fun p =>
    decide (Board.check_state (Board.set b p (some (Mark.other mover))) =
      some (Mark.other mover))) ++
  ((Board.get_available_positions b).filter fun p => decide (p = 4)) ++
  ((Board.get_available_positions b).filter fun p =>
    decide (p = 0 ∨ p = 2 ∨ p = 6 ∨ p = 8)) ++
  Board.get_available_positions b

/-- Checker certifying `minimax ≤ v`: at a maximizing node every open slot
must satisfy the bound, at a minimizing node one witness slot suffices. -/
def valLE (ai : Mark) (fuel : Nat) (v : Int) (b : Board) (mx : Bool) : Bool :=
  if Board.check_state b = some ai then decide (1 ≤ v)
  else if Board.check_state b = some (Mark.other ai) then decide (-1 ≤ v)
  else if Board.is_full b then decide (0 ≤ v)
  else match fuel with
    | 0 => false
    | fuel' + 1 =>
      if mx then
        (Board.get_available_positions b).all fun p =>
          valLE ai fuel' v (Board.set b p (some ai)) false
      else
        (heurOrder b (Mark.other ai)).any fun p =>
          valLE ai fuel' v (Board.set b p (some (Mark.other ai))) true

/-- Checker certifying `minimax ≥ v`: dual to `valLE`. -/
def valGE (ai : Mark) (fuel : Nat) (v : Int) (b : Board) (mx : Bool) : Bool :=
  if Board.check_state b = some ai then decide (v ≤ 1)
  else if Board.check_state b = some (Mark.other ai) then decide (v ≤ -1)
  else if Board.is_full b then decide (v ≤ 0)
  else match fuel with
    | 0 => false
    | fuel' + 1 =>
      if mx then
        (heurOrder b ai).any fun p =>
          valGE ai fuel' v (Board.set b p (some ai)) false
      else
        (Board.get_available_positions b).all fun p =>
          valGE ai fuel' v (Board.set b p (some (Mark.other ai))) true

theorem heurOrder_subset {b : Board} {mover : Mark} {p : Fin 9}
    (h : p ∈ heurOrder b mover) : p ∈ Board.get_available_positions b := by
  unfold heurOrder at h
  rcases List.mem_append.mp h with h | h
  · rcases List.mem_append.mp h with h | h
    · rcases List.mem_append.mp h with h | h
      · rcases List.mem_append.mp h with h | h
        · exact (List.mem_filter.mp h).1
        · exact (List.mem_filter.mp h).1
      · exact (List.mem_filter.mp h).1
    · exact (List.mem_filter.mp h).1
  · exact h

theorem check_state_none_of_not_win {ai : Mark} {b : Board}
    (h1 : Board.check_state b ≠ some ai)
    (h2 : Board.check_state b ≠ some (Mark.other ai)) :
    Board.check_state b = none := by
  rcases minimax_terminal_cases ai b 0 true with h | h | h
  · exact absurd h h1
  · exact absurd h h2
  · exact h

theorem valLE_sound (ai : Mark) :
    ∀ (fuel : Nat) (v : Int) (b : Board) (mx : Bool), valLE ai fuel v b mx = true →
      ∀ d : Nat, Score.lt (Score.num v) (AIAgent.minimax ai d b mx) = false := by
  intro fuel
  induction fuel with
  | zero =>
    intro v b mx h d
    rw [valLE.eq_def] at h
    by_cases h1 : Board.check_state b = some ai
    · rw [if_pos h1] at h
      rw [minimax_win h1 d mx]
      simp only [decide_eq_true_eq] at h
      simp [Score.lt]
      omega
    · rw [if_neg h1] at h
      by_cases h2 : Board.check_state b = some (Mark.other ai)
      · rw [if_pos h2] at h
        rw [minimax_lose h2 d mx]
        simp only [decide_eq_true_eq] at h
        simp [Score.lt]
        omega
      · rw [if_neg h2] at h
        by_cases h3 : Board.is_full b = true
        · rw [if_pos h3] at h
          rw [minimax_full (check_state_none_of_not_win h1 h2) h3 d mx]
          simp only [decide_eq_true_eq] at h
          simp [Score.lt]
          omega
        · rw [if_neg h3] at h
          exact Bool.noConfusion h
  | succ fuel ih =>
    intro v b mx h d
    rw [valLE.eq_def] at h
    by_cases h1 : Board.check_state b = some ai
    · rw [if_pos h1] at h
      rw [minimax_win h1 d mx]
      simp only [decide_eq_true_eq] at h
      simp [Score.lt]
      omega
    · rw [if_neg h1] at h
      by_cases h2 : Board.check_state b = some (Mark.other ai)
      · rw [if_pos h2] at h
        rw [minimax_lose h2 d mx]
        simp only [decide_eq_true_eq] at h
        simp [Score.lt]
        omega
      · rw [if_neg h2] at h
        by_cases h3 : Board.is_full b = true
        · rw [if_pos h3] at h
          rw [minimax_full (check_state_none_of_not_win h1 h2) h3 d mx]
          simp only [decide_eq_true_eq] at h
          simp [Score.lt]
          omega
        · rw [if_neg h3] at h
          have h0 : Board.check_state b = none := check_state_none_of_not_win h1 h2
          have h3' : Board.is_full b = false := by
            revert h3
            cases Board.is_full b <;> simp
          cases mx with
          | true =>
            replace h : (Board.get_available_positions b).all
                (fun p => valLE ai fuel v (Board.set b p (some ai)) false) = true := h
            rw [minimax_max_eq h0 h3' d]
            obtain ⟨hmem, _, _⟩ := fold_pymax_spec
              (fun p => AIAgent.minimax ai (d + 1) (Board.set b p (some ai)) false)
              (Board.get_available_positions b) Score.negInf
            rcases hmem with hres | ⟨r, hr, hres⟩
            · rw [hres]
              exact Score.lt_negInf _
            · rw [hres]
              exact ih v (Board.set b r (some ai)) false
                (List.all_eq_true.mp h r hr) (d + 1)
          | false =>
            replace h : (heurOrder b (Mark.other ai)).any
                (fun p => valLE ai fuel v (Board.set b p (some (Mark.other ai))) true)
                = true := h
            obtain ⟨p, hp, hv⟩ := List.any_eq_true.mp h
            rw [minimax_min_eq h0 h3' d]
            obtain ⟨_, _, hlb⟩ := fold_pymin_spec
              (fun x => AIAgent.minimax ai (d + 1)
                (Board.set b x (some (Mark.other ai))) true)
              (Board.get_available_positions b) Score.posInf
            exact Score.nlt_trans (ih v _ true hv (d + 1)) (hlb p (heurOrder_subset hp))

theorem valGE_sound (ai : Mark) :
    ∀ (fuel : Nat) (v : Int) (b : Board) (mx : Bool), valGE ai fuel v b mx = true →
      ∀ d : Nat, Score.lt (AIAgent.minimax ai d b mx) (Score.num v) = false := by
  intro fuel
  induction fuel with
  | zero =>
    intro v b mx h d
    rw [valGE.eq_def] at h
    by_cases h1 : Board.check_state b = some ai
    · rw [if_pos h1] at h
      rw [minimax_win h1 d mx]
      simp only [decide_eq_true_eq] at h
      simp [Score.lt]
      omega
    · rw [if_neg h1] at h
      by_cases h2 : Board.check_state b = some (Mark.other ai)
      · rw [if_pos h2] at h
        rw [minimax_lose h2 d mx]
        simp only [decide_eq_true_eq] at h
        simp [Score.lt]
        omega
      · rw [if_neg h2] at h
        by_cases h3 : Board.is_full b = true
        · rw [if_pos h3] at h
          rw [minimax_full (check_state_none_of_not_win h1 h2) h3 d mx]
          simp only [decide_eq_true_eq] at h
          simp [Score.lt]
          omega
        · rw [if_neg h3] at h
          exact Bool.noConfusion h
  | succ fuel ih =>
    intro v b mx h d
    rw [valGE.eq_def] at h
    by_cases h1 : Board.check_state b = some ai
    · rw [if_pos h1] at h
      rw [minimax_win h1 d mx]
      simp only [decide_eq_true_eq] at h
      simp [Score.lt]
      omega
    · rw [if_neg h1] at h
      by_cases h2 : Board.check_state b = some (Mark.other ai)
      · rw [if_pos h2] at h
        rw [minimax_lose h2 d mx]
        simp only [decide_eq_true_eq] at h
        simp [Score.lt]
        omega
      · rw [if_neg h2] at h
        by_cases h3 : Board.is_full b = true
        · rw [if_pos h3] at h
          rw [minimax_full (check_state_none_of_not_win h1 h2) h3 d mx]
          simp only [decide_eq_true_eq] at h
          simp [Score.lt]
          omega
        · rw [if_neg h3] at h
          have h0 : Board.check_state b = none := check_state_none_of_not_win h1 h2
          have h3' : Board.is_full b = false := by
            revert h3
            cases Board.is_full b <;> simp
          cases mx with
          | true =>
            replace h : (heurOrder b ai).any
                (fun p => valGE ai fuel v (Board.set b p (some ai)) false) = true := h
            obtain ⟨p, hp, hv⟩ := List.any_eq_true.mp h
            rw [minimax_max_eq h0 h3' d]
            obtain ⟨_, _, hub⟩ := fold_pymax_spec
              (fun x => AIAgent.minimax ai (d + 1) (Board.set b x (some ai)) false)
              (Board.get_available_positions b) Score.negInf
            exact Score.nlt_trans (hub p (heurOrder_subset hp)) (ih v _ false hv (d + 1))
          | false =>
            replace h : (Board.get_available_positions b).all
                (fun p => valGE ai fuel v (Board.set b p (some (Mark.other ai))) true)
                = true := h
            rw [minimax_min_eq h0 h3' d]
            obtain ⟨hmem, _, _⟩ := fold_pymin_spec
              (fun p => AIAgent.minimax ai (d + 1)
                (Board.set b p (some (Mark.other ai))) true)
              (Board.get_available_positions b) Score.posInf
            rcases hmem with hres | ⟨r, hr, hres⟩
            · rw [hres]
              exact Score.posInf_nlt _
            · rw [hres]
              exact ih v (Board.set b r (some (Mark.other ai))) true
                (List.all_eq_true.mp h r hr) (d + 1)

/-! ### The engine never loses (C1) -/

/-- A game trace of `run_game` with the engine on one side: states are a
board and whose turn it is; play starts from the fresh board.  From a
non-terminal position the engine's move is the one `process_input`
computes; the opponent may pick any blank slot. -/
inductive EReach (ai : Mark) (t0 : Bool) : Board → Bool → Prop where
  | refl : EReach ai t0 Board.reset t0
  | engine : ∀ {b : Board} {p : Fin 9}, EReach ai t0 b true →
      Board.check_state b = none → Board.is_full b = false →
      AIAgent.process_input ai b = some p →
      EReach ai t0 (Board.set b p (some ai)) false
  | opp : ∀ {b : Board} {p : Fin 9}, EReach ai t0 b false →
      Board.check_state b = none → Board.is_full b = false →
      b p = none →
      EReach ai t0 (Board.set b p (some (Mark.other ai))) true


theorem min_node_ge (ai : Mark) (b : Board) (v : Int) (d : Nat)
    (h0 : Board.check_state b = none) (h1 : Board.is_full b = false)
    (hch : ∀ p ∈ Board.get_available_positions b,
      Score.lt (AIAgent.minimax ai (d + 1) (Board.set b p (some (Mark.other ai))) true)
        (Score.num v) = false) :
    Score.lt (AIAgent.minimax ai d b false) (Score.num v) = false := by
  rw [minimax_min_eq h0 h1 d]
  obtain ⟨hmem, _, _⟩ := fold_pymin_spec
    (fun p => AIAgent.minimax ai (d + 1) (Board.set b p (some (Mark.other ai))) true)
    (Board.get_available_positions b) Score.posInf
  rcases hmem with hres | ⟨r, hr, hres⟩
  · rw [hres]
    exact Score.posInf_nlt _
  · rw [hres]
    exact hch r hr

theorem max_node_ge (ai : Mark) (b : Board) (v : Int) (d : Nat) (p : Fin 9)
    (hmem : p ∈ Board.get_available_positions b)
    (h0 : Board.check_state b = none) (h1 : Board.is_full b = false)
    (hc : Score.lt (AIAgent.minimax ai (d + 1) (Board.set b p (some ai)) false)
      (Score.num v) = false) :
    Score.lt (AIAgent.minimax ai d b true) (Score.num v) = false := by
  rw [minimax_max_eq h0 h1 d]
  obtain ⟨_, _, hub⟩ := fold_pymax_spec
    (fun x => AIAgent.minimax ai (d + 1) (Board.set b x (some ai)) false)
    (Board.get_available_positions b) Score.negInf
  exact Score.nlt_trans (hub p hmem) hc

set_option maxRecDepth 20000 in
set_option maxHeartbeats 4000000 in
theorem cert_opp_X_0 : ∀ d : Nat,
    Score.lt (AIAgent.minimax Mark.X d
      (Board.set Board.reset 0 (some (Mark.other Mark.X))) true) (Score.num 0) = false :=
  fun d => valGE_sound Mark.X 9 0
    (Board.set Board.reset 0 (some (Mark.other Mark.X))) true (by decide) d

set_option maxRecDepth 20000 in
set_option maxHeartbeats 4000000 in
theorem cert_opp_X_1 : ∀ d : Nat,
    Score.lt (AIAgent.minimax Mark.X d
      (Board.set Board.reset 1 (some (Mark.other Mark.X))) true) (Score.num 0) = false :=
  fun d => valGE_sound Mark.X 9 0
    (Board.set Board.reset 1 (some (Mark.other Mark.X))) true (by decide) d

set_option maxRecDepth 20000 in
set_option maxHeartbeats 4000000 in
theorem cert_opp_X_2 : ∀ d : Nat,
    Score.lt (AIAgent.minimax Mark.X d
      (Board.set Board.reset 2 (some (Mark.other Mark.X))) true) (Score.num 0) = false :=
  fun d => valGE_sound Mark.X 9 0
    (Board.set Board.reset 2 (some (Mark.other Mark.X))) true (by decide) d

set_option maxRecDepth 20000 in
set_option maxHeartbeats 4000000 in
theorem cert_opp_X_3 : ∀ d : Nat,
    Score.lt (AIAgent.minimax Mark.X d
      (Board.set Board.reset 3 (some (Mark.other Mark.X))) true) (Score.num 0) = false :=
  fun d => valGE_sound Mark.X 9 0
    (Board.set Board.reset 3 (some (Mark.other Mark.X))) true (by decide) d

set_option maxRecDepth 20000 in
set_option maxHeartbeats 4000000 in
theorem cert_opp_X_4 : ∀ d : Nat,
    Score.lt (AIAgent.minimax Mark.X d
      (Board.set Board.reset 4 (some (Mark.other Mark.X))) true) (Score.num 0) = false :=
  fun d => valGE_sound Mark.X 9 0
    (Board.set Board.reset 4 (some (Mark.other Mark.X))) true (by decide) d

set_option maxRecDepth 20000 in
set_option maxHeartbeats 4000000 in
theorem cert_opp_X_5 : ∀ d : Nat,
    Score.lt (AIAgent.minimax Mark.X d
      (Board.set Board.reset 5 (some (Mark.other Mark.X))) true) (Score.num 0) = false :=
  fun d => valGE_sound Mark.X 9 0
    (Board.set Board.reset 5 (some (Mark.other Mark.X))) true (by decide) d

set_option maxRecDepth 20000 in
set_option maxHeartbeats 4000000 in
theorem cert_opp_X_6 : ∀ d : Nat,
    Score.lt (AIAgent.minimax Mark.X d
      (Board.set Board.reset 6 (some (Mark.other Mark.X))) true) (Score.num 0) = false :=
  fun d => valGE_sound Mark.X 9 0
    (Board.set Board.reset 6 (some (Mark.other Mark.X))) true (by decide) d

set_option maxRecDepth 20000 in
set_option maxHeartbeats 4000000 in
theorem cert_opp_X_7 : ∀ d : Nat,
    Score.lt (AIAgent.minimax Mark.X d
      (Board.set Board.reset 7 (some (Mark.other Mark.X))) true) (Score.num 0) = false :=
  fun d => valGE_sound Mark.X 9 0
    (Board.set Board.reset 7 (some (Mark.other Mark.X))) true (by decide) d

set_option maxRecDepth 20000 in
set_option maxHeartbeats 4000000 in
theorem cert_opp_X_8 : ∀ d : Nat,
    Score.lt (AIAgent.minimax Mark.X d
      (Board.set Board.reset 8 (some (Mark.other Mark.X))) true) (Score.num 0) = false :=
  fun d => valGE_sound Mark.X 9 0
    (Board.set Board.reset 8 (some (Mark.other Mark.X))) true (by decide) d

set_option maxRecDepth 20000 in
set_option maxHeartbeats 4000000 in
theorem cert_t0_X_1 : ∀ d : Nat,
    Score.lt (AIAgent.minimax Mark.X d
      (Board.set (Board.set Board.reset 0 (some Mark.X)) 1 (some (Mark.other Mark.X)))
      true) (Score.num 0) = false :=
  fun d => valGE_sound Mark.X 9 0
    (Board.set (Board.set Board.reset 0 (some Mark.X)) 1 (some (Mark.other Mark.X)))
    true (by decide) d

set_option maxRecDepth 20000 in
set_option maxHeartbeats 4000000 in
theorem cert_t0_X_2 : ∀ d : Nat,
    Score.lt (AIAgent.minimax Mark.X d
      (Board.set (Board.set Board.reset 0 (some Mark.X)) 2 (some (Mark.other Mark.X)))
      true) (Score.num 0) = false :=
  fun d => valGE_sound Mark.X 9 0
    (Board.set (Board.set Board.reset 0 (some Mark.X)) 2 (some (Mark.other Mark.X)))
    true (by decide) d

set_option maxRecDepth 20000 in
set_option maxHeartbeats 4000000 in
theorem cert_t0_X_3 : ∀ d : Nat,
    Score.lt (AIAgent.minimax Mark.X d
      (Board.set (Board.set Board.reset 0 (some Mark.X)) 3 (some (Mark.other Mark.X)))
      true) (Score.num 0) = false :=
  fun d => valGE_sound Mark.X 9 0
    (Board.set (Board.set Board.reset 0 (some Mark.X)) 3 (some (Mark.other Mark.X)))
    true (by decide) d

set_option maxRecDepth 20000 in
set_option maxHeartbeats 4000000 in
theorem cert_t0_X_4 : ∀ d : Nat,
    Score.lt (AIAgent.minimax Mark.X d
      (Board.set (Board.set Board.reset 0 (some Mark.X)) 4 (some (Mark.other Mark.X)))
      true) (Score.num 0) = false :=
  fun d => valGE_sound Mark.X 9 0
    (Board.set (Board.set Board.reset 0 (some Mark.X)) 4 (some (Mark.other Mark.X)))
    true (by decide) d

set_option maxRecDepth 20000 in
set_option maxHeartbeats 4000000 in
theorem cert_t0_X_5 : ∀ d : Nat,
    Score.lt (AIAgent.minimax Mark.X d
      (Board.set (Board.set Board.reset 0 (some Mark.X)) 5 (some (Mark.other Mark.X)))
      true) (Score.num 0) = false :=
  fun d => valGE_sound Mark.X 9 0
    (Board.set (Board.set Board.reset 0 (some Mark.X)) 5 (some (Mark.other Mark.X)))
    true (by decide) d

set_option maxRecDepth 20000 in
set_option maxHeartbeats 4000000 in
theorem cert_t0_X_6 : ∀ d : Nat,
    Score.lt (AIAgent.minimax Mark.X d
      (Board.set (Board.set Board.reset 0 (some Mark.X)) 6 (some (Mark.other Mark.X)))
      true) (Score.num 0) = false :=
  fun d => valGE_sound Mark.X 9 0
    (Board.set (Board.set Board.reset 0 (some Mark.X)) 6 (some (Mark.other Mark.X)))
    true (by decide) d

set_option maxRecDepth 20000 in
set_option maxHeartbeats 4000000 in
theorem cert_t0_X_7 : ∀ d : Nat,
    Score.lt (AIAgent.minimax Mark.X d
      (Board.set (Board.set Board.reset 0 (some Mark.X)) 7 (some (Mark.other Mark.X)))
      true) (Score.num 0) = false :=
  fun d => valGE_sound Mark.X 9 0
    (Board.set (Board.set Board.reset 0 (some Mark.X)) 7 (some (Mark.other Mark.X)))
    true (by decide) d

set_option maxRecDepth 20000 in
set_option maxHeartbeats 4000000 in
theorem cert_t0_X_8 : ∀ d : Nat,
    Score.lt (AIAgent.minimax Mark.X d
      (Board.set (Board.set Board.reset 0 (some Mark.X)) 8 (some (Mark.other Mark.X)))
      true) (Score.num 0) = false :=
  fun d => valGE_sound Mark.X 9 0
    (Board.set (Board.set Board.reset 0 (some Mark.X)) 8 (some (Mark.other Mark.X)))
    true (by decide) d

theorem trial0_ge_X : ∀ d : Nat,
    Score.lt (AIAgent.minimax Mark.X d
      (Board.set Board.reset 0 (some Mark.X)) false) (Score.num 0) = false := by
  intro d
  apply min_node_ge Mark.X (Board.set Board.reset 0 (some Mark.X)) 0 d
    (by decide) (by decide)
  intro p hp
  have havail : Board.get_available_positions
      (Board.set Board.reset 0 (some Mark.X)) = [1, 2, 3, 4, 5, 6, 7, 8] := by decide
  rw [havail] at hp
  fin_cases hp
  · exact cert_t0_X_1 (d + 1)
  · exact cert_t0_X_2 (d + 1)
  · exact cert_t0_X_3 (d + 1)
  · exact cert_t0_X_4 (d + 1)
  · exact cert_t0_X_5 (d + 1)
  · exact cert_t0_X_6 (d + 1)
  · exact cert_t0_X_7 (d + 1)
  · exact cert_t0_X_8 (d + 1)

theorem init_false_X :
    Score.lt (AIAgent.minimax Mark.X 0 Board.reset false) (Score.num 0) = false := by
  apply min_node_ge Mark.X Board.reset 0 0 (by decide) (by decide)
  intro p hp
  have havail : Board.get_available_positions Board.reset =
      [0, 1, 2, 3, 4, 5, 6, 7, 8] := by decide
  rw [havail] at hp
  fin_cases hp
  · exact cert_opp_X_0 (0 + 1)
  · exact cert_opp_X_1 (0 + 1)
  · exact cert_opp_X_2 (0 + 1)
  · exact cert_opp_X_3 (0 + 1)
  · exact cert_opp_X_4 (0 + 1)
  · exact cert_opp_X_5 (0 + 1)
  · exact cert_opp_X_6 (0 + 1)
  · exact cert_opp_X_7 (0 + 1)
  · exact cert_opp_X_8 (0 + 1)

theorem init_true_X :
    Score.lt (AIAgent.minimax Mark.X 0 Board.reset true) (Score.num 0) = false :=
  max_node_ge Mark.X Board.reset 0 0 0 (by decide) (by decide) (by decide)
    (trial0_ge_X (0 + 1))

set_option maxRecDepth 20000 in
set_option maxHeartbeats 4000000 in
theorem cert_opp_O_0 : ∀ d : Nat,
    Score.lt (AIAgent.minimax Mark.O d
      (Board.set Board.reset 0 (some (Mark.other Mark.O))) true) (Score.num 0) = false :=
  fun d => valGE_sound Mark.O 9 0
    (Board.set Board.reset 0 (some (Mark.other Mark.O))) true (by decide) d

set_option maxRecDepth 20000 in
set_option maxHeartbeats 4000000 in
theorem cert_opp_O_1 : ∀ d : Nat,
    Score.lt (AIAgent.minimax Mark.O d
      (Board.set Board.reset 1 (some (Mark.other Mark.O))) true) (Score.num 0) = false :=
  fun d => valGE_sound Mark.O 9 0
    (Board.set Board.reset 1 (some (Mark.other Mark.O))) true (by decide) d

set_option maxRecDepth 20000 in
set_option maxHeartbeats 4000000 in
theorem cert_opp_O_2 : ∀ d : Nat,
    Score.lt (AIAgent.minimax Mark.O d
      (Board.set Board.reset 2 (some (Mark.other Mark.O))) true) (Score.num 0) = false :=
  fun d => valGE_sound Mark.O 9 0
    (Board.set Board.reset 2 (some (Mark.other Mark.O))) true (by decide) d

set_option maxRecDepth 20000 in
set_option maxHeartbeats 4000000 in
theorem cert_opp_O_3 : ∀ d : Nat,
    Score.lt (AIAgent.minimax Mark.O d
      (Board.set Board.reset 3 (some (Mark.other Mark.O))) true) (Score.num 0) = false :=
  fun d => valGE_sound Mark.O 9 0
    (Board.set Board.reset 3 (some (Mark.other Mark.O))) true (by decide) d

set_option maxRecDepth 20000 in
set_option maxHeartbeats 4000000 in
theorem cert_opp_O_4 : ∀ d : Nat,
    Score.lt (AIAgent.minimax Mark.O d
      (Board.set Board.reset 4 (some (Mark.other Mark.O))) true) (Score.num 0) = false :=
  fun d => valGE_sound Mark.O 9 0
    (Board.set Board.reset 4 (some (Mark.other Mark.O))) true (by decide) d

set_option maxRecDepth 20000 in
set_option maxHeartbeats 4000000 in
theorem cert_opp_O_5 : ∀ d : Nat,
    Score.lt (AIAgent.minimax Mark.O d
      (Board.set Board.reset 5 (some (Mark.other Mark.O))) true) (Score.num 0) = false :=
  fun d => valGE_sound Mark.O 9 0
    (Board.set Board.reset 5 (some (Mark.other Mark.O))) true (by decide) d

set_option maxRecDepth 20000 in
set_option maxHeartbeats 4000000 in
theorem cert_opp_O_6 : ∀ d : Nat,
    Score.lt (AIAgent.minimax Mark.O d
      (Board.set Board.reset 6 (some (Mark.other Mark.O))) true) (Score.num 0) = false :=
  fun d => valGE_sound Mark.O 9 0
    (Board.set Board.reset 6 (some (Mark.other Mark.O))) true (by decide) d

set_option maxRecDepth 20000 in
set_option maxHeartbeats 4000000 in
theorem cert_opp_O_7 : ∀ d : Nat,
    Score.lt (AIAgent.minimax Mark.O d
      (Board.set Board.reset 7 (some (Mark.other Mark.O))) true) (Score.num 0) = false :=
  fun d => valGE_sound Mark.O 9 0
    (Board.set Board.reset 7 (some (Mark.other Mark.O))) true (by decide) d

set_option maxRecDepth 20000 in
set_option maxHeartbeats 4000000 in
theorem cert_opp_O_8 : ∀ d : Nat,
    Score.lt (AIAgent.minimax Mark.O d
      (Board.set Board.reset 8 (some (Mark.other Mark.O))) true) (Score.num 0) = false :=
  fun d => valGE_sound Mark.O 9 0
    (Board.set Board.reset 8 (some (Mark.other Mark.O))) true (by decide) d

set_option maxRecDepth 20000 in
set_option maxHeartbeats 4000000 in
theorem cert_t0_O_1 : ∀ d : Nat,
    Score.lt (AIAgent.minimax Mark.O d
      (Board.set (Board.set Board.reset 0 (some Mark.O)) 1 (some (Mark.other Mark.O)))
      true) (Score.num 0) = false :=
  fun d => valGE_sound Mark.O 9 0
    (Board.set (Board.set Board.reset 0 (some Mark.O)) 1 (some (Mark.other Mark.O)))
    true (by decide) d

set_option maxRecDepth 20000 in
set_option maxHeartbeats 4000000 in
theorem cert_t0_O_2 : ∀ d : Nat,
    Score.lt (AIAgent.minimax Mark.O d
      (Board.set (Board.set Board.reset 0 (some Mark.O)) 2 (some (Mark.other Mark.O)))
      true) (Score.num 0) = false :=
  fun d => valGE_sound Mark.O 9 0
    (Board.set (Board.set Board.reset 0 (some Mark.O)) 2 (some (Mark.other Mark.O)))
    true (by decide) d

set_option maxRecDepth 20000 in
set_option maxHeartbeats 4000000 in
theorem cert_t0_O_3 : ∀ d : Nat,
    Score.lt (AIAgent.minimax Mark.O d
      (Board.set (Board.set Board.reset 0 (some Mark.O)) 3 (some (Mark.other Mark.O)))
      true) (Score.num 0) = false :=
  fun d => valGE_sound Mark.O 9 0
    (Board.set (Board.set Board.reset 0 (some Mark.O)) 3 (some (Mark.other Mark.O)))
    true (by decide) d

set_option maxRecDepth 20000 in
set_option maxHeartbeats 4000000 in
theorem cert_t0_O_4 : ∀ d : Nat,
    Score.lt (AIAgent.minimax Mark.O d
      (Board.set (Board.set Board.reset 0 (some Mark.O)) 4 (some (Mark.other Mark.O)))
      true) (Score.num 0) = false :=
  fun d => valGE_sound Mark.O 9 0
    (Board.set (Board.set Board.reset 0 (some Mark.O)) 4 (some (Mark.other Mark.O)))
    true (by decide) d

set_option maxRecDepth 20000 in
set_option maxHeartbeats 4000000 in
theorem cert_t0_O_5 : ∀ d : Nat,
    Score.lt (AIAgent.minimax Mark.O d
      (Board.set (Board.set Board.reset 0 (some Mark.O)) 5 (some (Mark.other Mark.O)))
      true) (Score.num 0) = false :=
  fun d => valGE_sound Mark.O 9 0
    (Board.set (Board.set Board.reset 0 (some Mark.O)) 5 (some (Mark.other Mark.O)))
    true (by decide) d

set_option maxRecDepth 20000 in
set_option maxHeartbeats 4000000 in
theorem cert_t0_O_6 : ∀ d : Nat,
    Score.lt (AIAgent.minimax Mark.O d
      (Board.set (Board.set Board.reset 0 (some Mark.O)) 6 (some (Mark.other Mark.O)))
      true) (Score.num 0) = false :=
  fun d => valGE_sound Mark.O 9 0
    (Board.set (Board.set Board.reset 0 (some Mark.O)) 6 (some (Mark.other Mark.O)))
    true (by decide) d

set_option maxRecDepth 20000 in
set_option maxHeartbeats 4000000 in
theorem cert_t0_O_7 : ∀ d : Nat,
    Score.lt (AIAgent.minimax Mark.O d
      (Board.set (Board.set Board.reset 0 (some Mark.O)) 7 (some (Mark.other Mark.O)))
      true) (Score.num 0) = false :=
  fun d => valGE_sound Mark.O 9 0
    (Board.set (Board.set Board.reset 0 (some Mark.O)) 7 (some (Mark.other Mark.O)))
    true (by decide) d

set_option maxRecDepth 20000 in
set_option maxHeartbeats 4000000 in
theorem cert_t0_O_8 : ∀ d : Nat,
    Score.lt (AIAgent.minimax Mark.O d
      (Board.set (Board.set Board.reset 0 (some Mark.O)) 8 (some (Mark.other Mark.O)))
      true) (Score.num 0) = false :=
  fun d => valGE_sound Mark.O 9 0
    (Board.set (Board.set Board.reset 0 (some Mark.O)) 8 (some (Mark.other Mark.O)))
    true (by decide) d

theorem trial0_ge_O : ∀ d : Nat,
    Score.lt (AIAgent.minimax Mark.O d
      (Board.set Board.reset 0 (some Mark.O)) false) (Score.num 0) = false := by
  intro d
  apply min_node_ge Mark.O (Board.set Board.reset 0 (some Mark.O)) 0 d
    (by decide) (by decide)
  intro p hp
  have havail : Board.get_available_positions
      (Board.set Board.reset 0 (some Mark.O)) = [1, 2, 3, 4, 5, 6, 7, 8] := by decide
  rw [havail] at hp
  fin_cases hp
  · exact cert_t0_O_1 (d + 1)
  · exact cert_t0_O_2 (d + 1)
  · exact cert_t0_O_3 (d + 1)
  · exact cert_t0_O_4 (d + 1)
  · exact cert_t0_O_5 (d + 1)
  · exact cert_t0_O_6 (d + 1)
  · exact cert_t0_O_7 (d + 1)
  · exact cert_t0_O_8 (d + 1)

theorem init_false_O :
    Score.lt (AIAgent.minimax Mark.O 0 Board.reset false) (Score.num 0) = false := by
  apply min_node_ge Mark.O Board.reset 0 0 (by decide) (by decide)
  intro p hp
  have havail : Board.get_available_positions Board.reset =
      [0, 1, 2, 3, 4, 5, 6, 7, 8] := by decide
  rw [havail] at hp
  fin_cases hp
  · exact cert_opp_O_0 (0 + 1)
  · exact cert_opp_O_1 (0 + 1)
  · exact cert_opp_O_2 (0 + 1)
  · exact cert_opp_O_3 (0 + 1)
  · exact cert_opp_O_4 (0 + 1)
  · exact cert_opp_O_5 (0 + 1)
  · exact cert_opp_O_6 (0 + 1)
  · exact cert_opp_O_7 (0 + 1)
  · exact cert_opp_O_8 (0 + 1)

theorem init_true_O :
    Score.lt (AIAgent.minimax Mark.O 0 Board.reset true) (Score.num 0) = false :=
  max_node_ge Mark.O Board.reset 0 0 0 (by decide) (by decide) (by decide)
    (trial0_ge_O (0 + 1))

theorem init_value_nonneg :
    ∀ (ai : Mark) (t0 : Bool),
      Score.lt (AIAgent.minimax ai 0 Board.reset t0) (Score.num 0) = false := by
  intro ai t0
  cases ai <;> cases t0
  · exact init_false_X
  · exact init_true_X
  · exact init_false_O
  · exact init_true_O

theorem ereach_value (ai : Mark) (t0 : Bool) :
    ∀ (b : Board) (t : Bool), EReach ai t0 b t →
      Score.lt (AIAgent.minimax ai 0 b t) (Score.num 0) = false := by
  intro b t h
  induction h with
  | refl => exact init_value_nonneg ai t0
  | @engine b' p hre hcs hfull hpi ih =>
    obtain ⟨r, hr, hpi2, hmax⟩ := process_input_max ai b' hcs hfull
    rw [hpi] at hpi2
    have hrp : r = p := (Option.some.inj hpi2).symm
    rw [← hrp, hmax]
    exact ih
  | @opp b' p hre hcs hfull hbp ih =>
    have heq := @minimax_min_eq ai b' hcs hfull 0
    obtain ⟨_, _, hlb⟩ := fold_pymin_spec
      (fun x => AIAgent.minimax ai (0 + 1)
        (Board.set b' x (some (Mark.other ai))) true)
      (Board.get_available_positions b') Score.posInf
    have hp' := hlb p ((mem_available b' p).mpr hbp)
    rw [← heq] at hp'
    have hchain := Score.nlt_trans hp' ih
    rw [minimax_depth_irrel ai
      (Board.countEmpty (Board.set b' p (some (Mark.other ai))))
      (Board.set b' p (some (Mark.other ai))) (Nat.le_refl _) 0 (0 + 1) true]
    exact hchain

/-- C1: when one side chooses every one of its moves via the decision
engine starting from the empty board, then whatever legal moves the
opponent plays, no reachable position is a win for the opponent's mark;
in particular every terminal reachable position is a win for the engine's
mark or a draw. -/
theorem engine_never_loses :
    ∀ (ai : Mark) (t0 : Bool) (b : Board) (t : Bool), EReach ai t0 b t →
      Board.outcomeOf b ≠ Outcome.win (Mark.other ai) ∧
      ((Board.check_state b ≠ none ∨ Board.is_full b = true) →
        Board.outcomeOf b = Outcome.win ai ∨ Board.outcomeOf b = Outcome.draw) := by
  intro ai t0 b t h
  have hval := ereach_value ai t0 b t h
  have hnotlose : Board.check_state b ≠ some (Mark.other ai) := by
    intro hcs
    rw [minimax_lose hcs 0 t] at hval
    simp [Score.lt] at hval
  constructor
  · intro ho
    unfold Board.outcomeOf at ho
    rcases hcs : Board.check_state b with _ | m
    · rw [hcs] at ho
      rcases hf : Board.is_full b with _ | _ <;> rw [hf] at ho <;> simp at ho
    · rw [hcs] at ho
      simp only [Outcome.win.injEq] at ho
      exact hnotlose (ho ▸ hcs)
  · intro hterm
    unfold Board.outcomeOf
    rcases hcs : Board.check_state b with _ | m
    · rcases hterm with hne | hf
      · exact absurd hcs hne
      · rw [if_pos hf]
        exact Or.inr rfl
    · have hm : m = ai := by
        have hne : m ≠ Mark.other ai := fun he => hnotlose (he ▸ hcs)
        cases m <;> cases ai <;> simp_all [Mark.other]
      rw [hm]
      exact Or.inl rfl

/-- Witness for C1 at the concrete start of a game. -/
theorem engine_never_loses_witness :
    Board.outcomeOf Board.reset ≠ Outcome.win (Mark.other Mark.X) ∧
    ((Board.check_state Board.reset ≠ none ∨ Board.is_full Board.reset = true) →
      Board.outcomeOf Board.reset = Outcome.win Mark.X ∨
        Board.outcomeOf Board.reset = Outcome.draw) :=
  engine_never_loses Mark.X true Board.reset true EReach.refl


/-! ### The opening move (C7) -/

theorem process_input_fresh_aux (ai : Mark)
    (h0 : AIAgent.minimax ai 0 (Board.set Board.reset 0 (some ai)) false = Score.num 0)
    (h1 : Score.lt (Score.num 0)
      (AIAgent.minimax ai 0 (Board.set Board.reset 1 (some ai)) false) = false)
    (h2 : Score.lt (Score.num 0)
      (AIAgent.minimax ai 0 (Board.set Board.reset 2 (some ai)) false) = false)
    (h3 : Score.lt (Score.num 0)
      (AIAgent.minimax ai 0 (Board.set Board.reset 3 (some ai)) false) = false)
    (h4 : Score.lt (Score.num 0)
      (AIAgent.minimax ai 0 (Board.set Board.reset 4 (some ai)) false) = false)
    (h5 : Score.lt (Score.num 0)
      (AIAgent.minimax ai 0 (Board.set Board.reset 5 (some ai)) false) = false)
    (h6 : Score.lt (Score.num 0)
      (AIAgent.minimax ai 0 (Board.set Board.reset 6 (some ai)) false) = false)
    (h7 : Score.lt (Score.num 0)
      (AIAgent.minimax ai 0 (Board.set Board.reset 7 (some ai)) false) = false)
    (h8 : Score.lt (Score.num 0)
      (AIAgent.minimax ai 0 (Board.set Board.reset 8 (some ai)) false) = false) :
    AIAgent.process_input ai Board.reset = some 0 := by
  unfold AIAgent.process_input
  have havail : Board.get_available_positions Board.reset =
      [0, 1, 2, 3, 4, 5, 6, 7, 8] := by decide
  rw [havail]
  have hneg : Score.lt Score.negInf (Score.num 0) = true := rfl
  simp only [List.foldl_cons, List.foldl_nil, h0, h1, h2, h3, h4, h5, h6, h7, h8,
    hneg, if_true, if_false, Bool.false_eq_true, if_pos, if_neg]


set_option maxRecDepth 20000 in
set_option maxHeartbeats 4000000 in
theorem cert_le_X_0 :
    Score.lt (Score.num 0) (AIAgent.minimax Mark.X 0
      (Board.set Board.reset 0 (some Mark.X)) false) = false :=
  valLE_sound Mark.X 9 0
    (Board.set Board.reset 0 (some Mark.X)) false (by decide) 0

set_option maxRecDepth 20000 in
set_option maxHeartbeats 4000000 in
theorem cert_le_X_1 :
    Score.lt (Score.num 0) (AIAgent.minimax Mark.X 0
      (Board.set Board.reset 1 (some Mark.X)) false) = false :=
  valLE_sound Mark.X 9 0
    (Board.set Board.reset 1 (some Mark.X)) false (by decide) 0

set_option maxRecDepth 20000 in
set_option maxHeartbeats 4000000 in
theorem cert_le_X_2 :
    Score.lt (Score.num 0) (AIAgent.minimax Mark.X 0
      (Board.set Board.reset 2 (some Mark.X)) false) = false :=
  valLE_sound Mark.X 9 0
    (Board.set Board.reset 2 (some Mark.X)) false (by decide) 0

set_option maxRecDepth 20000 in
set_option maxHeartbeats 4000000 in
theorem cert_le_X_3 :
    Score.lt (Score.num 0) (AIAgent.minimax Mark.X 0
      (Board.set Board.reset 3 (some Mark.X)) false) = false :=
  valLE_sound Mark.X 9 0
    (Board.set Board.reset 3 (some Mark.X)) false (by decide) 0

set_option maxRecDepth 20000 in
set_option maxHeartbeats 4000000 in
theorem cert_le_X_4 :
    Score.lt (Score.num 0) (AIAgent.minimax Mark.X 0
      (Board.set Board.reset 4 (some Mark.X)) false) = false :=
  valLE_sound Mark.X 9 0
    (Board.set Board.reset 4 (some Mark.X)) false (by decide) 0

set_option maxRecDepth 20000 in
set_option maxHeartbeats 4000000 in
theorem cert_le_X_5 :
    Score.lt (Score.num 0) (AIAgent.minimax Mark.X 0
      (Board.set Board.reset 5 (some Mark.X)) false) = false :=
  valLE_sound Mark.X 9 0
    (Board.set Board.reset 5 (some Mark.X)) false (by decide) 0

set_option maxRecDepth 20000 in
set_option maxHeartbeats 4000000 in
theorem cert_le_X_6 :
    Score.lt (Score.num 0) (AIAgent.minimax Mark.X 0
      (Board.set Board.reset 6 (some Mark.X)) false) = false :=
  valLE_sound Mark.X 9 0
    (Board.set Board.reset 6 (some Mark.X)) false (by decide) 0

set_option maxRecDepth 20000 in
set_option maxHeartbeats 4000000 in
theorem cert_le_X_7 :
    Score.lt (Score.num 0) (AIAgent.minimax Mark.X 0
      (Board.set Board.reset 7 (some Mark.X)) false) = false :=
  valLE_sound Mark.X 9 0
    (Board.set Board.reset 7 (some Mark.X)) false (by decide) 0

set_option maxRecDepth 20000 in
set_option maxHeartbeats 4000000 in
theorem cert_le_X_8 :
    Score.lt (Score.num 0) (AIAgent.minimax Mark.X 0
      (Board.set Board.reset 8 (some Mark.X)) false) = false :=
  valLE_sound Mark.X 9 0
    (Board.set Board.reset 8 (some Mark.X)) false (by decide) 0

theorem trial0_eq_X :
    AIAgent.minimax Mark.X 0 (Board.set Board.reset 0 (some Mark.X)) false =
      Score.num 0 := by
  have hge := trial0_ge_X 0
  have hle := cert_le_X_0
  obtain ⟨s, hs, hb1, hb2⟩ := minimax_bound Mark.X
    (Board.countEmpty (Board.set Board.reset 0 (some Mark.X)))
    (Board.set Board.reset 0 (some Mark.X)) (Nat.le_refl _) 0 false
  rw [hs] at hge hle ⊢
  have hz : s = 0 := by
    simp [Score.lt] at hge hle
    omega
  rw [hz]

set_option maxRecDepth 20000 in
set_option maxHeartbeats 4000000 in
theorem cert_le_O_0 :
    Score.lt (Score.num 0) (AIAgent.minimax Mark.O 0
      (Board.set Board.reset 0 (some Mark.O)) false) = false :=
  valLE_sound Mark.O 9 0
    (Board.set Board.reset 0 (some Mark.O)) false (by decide) 0

set_option maxRecDepth 20000 in
set_option maxHeartbeats 4000000 in
theorem cert_le_O_1 :
    Score.lt (Score.num 0) (AIAgent.minimax Mark.O 0
      (Board.set Board.reset 1 (some Mark.O)) false) = false :=
  valLE_sound Mark.O 9 0
    (Board.set Board.reset 1 (some Mark.O)) false (by decide) 0

set_option maxRecDepth 20000 in
set_option maxHeartbeats 4000000 in
theorem cert_le_O_2 :
    Score.lt (Score.num 0) (AIAgent.minimax Mark.O 0
      (Board.set Board.reset 2 (some Mark.O)) false) = false :=
  valLE_sound Mark.O 9 0
    (Board.set Board.reset 2 (some Mark.O)) false (by decide) 0

set_option maxRecDepth 20000 in
set_option maxHeartbeats 4000000 in
theorem cert_le_O_3 :
    Score.lt (Score.num 0) (AIAgent.minimax Mark.O 0
      (Board.set Board.reset 3 (some Mark.O)) false) = false :=
  valLE_sound Mark.O 9 0
    (Board.set Board.reset 3 (some Mark.O)) false (by decide) 0

set_option maxRecDepth 20000 in
set_option maxHeartbeats 4000000 in
theorem cert_le_O_4 :
    Score.lt (Score.num 0) (AIAgent.minimax Mark.O 0
      (Board.set Board.reset 4 (some Mark.O)) false) = false :=
  valLE_sound Mark.O 9 0
    (Board.set Board.reset 4 (some Mark.O)) false (by decide) 0

set_option maxRecDepth 20000 in
set_option maxHeartbeats 4000000 in
theorem cert_le_O_5 :
    Score.lt (Score.num 0) (AIAgent.minimax Mark.O 0
      (Board.set Board.reset 5 (some Mark.O)) false) = false :=
  valLE_sound Mark.O 9 0
    (Board.set Board.reset 5 (some Mark.O)) false (by decide) 0

set_option maxRecDepth 20000 in
set_option maxHeartbeats 4000000 in
theorem cert_le_O_6 :
    Score.lt (Score.num 0) (AIAgent.minimax Mark.O 0
      (Board.set Board.reset 6 (some Mark.O)) false) = false :=
  valLE_sound Mark.O 9 0
    (Board.set Board.reset 6 (some Mark.O)) false (by decide) 0

set_option maxRecDepth 20000 in
set_option maxHeartbeats 4000000 in
theorem cert_le_O_7 :
    Score.lt (Score.num 0) (AIAgent.minimax Mark.O 0
      (Board.set Board.reset 7 (some Mark.O)) false) = false :=
  valLE_sound Mark.O 9 0
    (Board.set Board.reset 7 (some Mark.O)) false (by decide) 0

set_option maxRecDepth 20000 in
set_option maxHeartbeats 4000000 in
theorem cert_le_O_8 :
    Score.lt (Score.num 0) (AIAgent.minimax Mark.O 0
      (Board.set Board.reset 8 (some Mark.O)) false) = false :=
  valLE_sound Mark.O 9 0
    (Board.set Board.reset 8 (some Mark.O)) false (by decide) 0

theorem trial0_eq_O :
    AIAgent.minimax Mark.O 0 (Board.set Board.reset 0 (some Mark.O)) false =
      Score.num 0 := by
  have hge := trial0_ge_O 0
  have hle := cert_le_O_0
  obtain ⟨s, hs, hb1, hb2⟩ := minimax_bound Mark.O
    (Board.countEmpty (Board.set Board.reset 0 (some Mark.O)))
    (Board.set Board.reset 0 (some Mark.O)) (Nat.le_refl _) 0 false
  rw [hs] at hge hle ⊢
  have hz : s = 0 := by
    simp [Score.lt] at hge hle
    omega
  rw [hz]

/-- C7: on the all-blank board the move selection returns slot 0, a corner
(in {0,2,6,8}): the trial at slot 0 scores 0, no later trial strictly
improves on it, and the first-maximal tie-break keeps slot 0; and since
the search hands back an unchanged board, an immediately repeated
invocation returns the same index. -/
theorem process_input_first_move :
    ∀ ai : Mark,
      (∃ p : Fin 9, AIAgent.process_input ai Board.reset = some p ∧
        p ∈ ([0, 2, 6, 8] : List (Fin 9))) ∧
      (AIAgent.process_inputT ai (AIAgent.process_inputT ai Board.reset).2).1 =
        (AIAgent.process_inputT ai Board.reset).1 := by
  intro ai
  have hmain : AIAgent.process_input ai Board.reset = some 0 := by
    cases ai with
    | X =>
      exact process_input_fresh_aux Mark.X trial0_eq_X cert_le_X_1 cert_le_X_2
        cert_le_X_3 cert_le_X_4 cert_le_X_5 cert_le_X_6 cert_le_X_7 cert_le_X_8
    | O =>
      exact process_input_fresh_aux Mark.O trial0_eq_O cert_le_O_1 cert_le_O_2
        cert_le_O_3 cert_le_O_4 cert_le_O_5 cert_le_O_6 cert_le_O_7 cert_le_O_8
  refine ⟨⟨0, hmain, by decide⟩, ?_⟩
  simp [process_inputT_eq]
